import Mathlib

/-!
# SPI flash partition driver (`common/spi_flash.c`)

A shallow embedding of the JEDEC SPI flash wrapper.  The driver's module-level
state (partition table, sleep flag) is threaded explicitly through a `World`,
which also carries the state of the chip behind the SPI transport and the log
of every frame handed to `RETARGET_SpiTransferHalf`.

* `uint32_t` values are natural numbers, with `% 2^32` wherever the C
  arithmetic can wrap;
* the `int partition` parameter is an `Int`;
* the two polling loops take a `fuel` bound on the number of status reads and
  yield `Fault.fuelExhausted` when it is used up;
* indexing `spi_flash_partitions` outside `0..2` has no defined result in C and
  yields `Fault.outOfBounds`.
-/

namespace SpiFlash

/-! ## Data model -/

/-- Ways in which a call fails to produce a C-level result. -/
inductive Fault where
  /-- `spi_flash_partitions[i]` with `i` outside the array. -/
  | outOfBounds
  /-- a `while` polling loop was still running when the fuel ran out. -/
  | fuelExhausted
  deriving DecidableEq, Repr

/-- One element of the anonymous struct array `spi_flash_partitions`
(`end_` is the field `end`, a reserved word here). -/
structure Partition where
  start : Nat
  end_ : Nat
  size : Nat
  deriving DecidableEq, Repr

/-- One call of the transport: the bytes sent and the number of bytes asked
back. -/
structure Frame where
  tx : List Nat
  rxlen : Nat
  deriving DecidableEq, Repr

/-- The half-duplex transfer primitive of `retargetspi.h`, which is not part of
the driver: from the chip state, the transmitted bytes and the receive length
it gives the next chip state and the received bytes. -/
abbrev Transport (σ : Type) := σ → List Nat → Nat → σ × List Nat

/-- Driver statics together with the chip state and the bus log. -/
structure World (σ : Type) where
  spi_flash_partitions : List Partition
  spi_flash_sleeping : Int
  chip : σ
  log : List Frame

def SPI_FLASH_PARTITIONS_COUNT : Int := 3

/-- The static initialiser of `spi_flash_partitions`; `size` is not listed in
the initialiser and so starts at zero. -/
def spi_flash_partitions_static : List Partition :=
  [ { start := 0,        end_ := 0x4000,   size := 0 },
    { start := 0x4000,   end_ := 0x100000, size := 0 },
    { start := 0x100000, end_ := 0x800000, size := 0 } ]

/-- Program state at start-up: `spi_flash_sleeping = 1`, static table. -/
def World.initial {σ : Type} (c : σ) : World σ :=
  { spi_flash_partitions := spi_flash_partitions_static
    spi_flash_sleeping := 1
    chip := c
    log := [] }

/-! ## Machine arithmetic -/

/-- Subtraction of `uint32_t`. -/
def sub32 (a b : Nat) : Nat := (a % 2^32 + 2^32 - b % 2^32) % 2^32

/-- Addition of `uint32_t`. -/
def add32 (a b : Nat) : Nat := (a + b) % 2^32

/-- Conversion of a `uint32_t` to the `int32_t` return type. -/
def toInt32 (n : Nat) : Int :=
  if n % 2^32 < 2^31 then ((n % 2^32 : Nat) : Int) else ((n % 2^32 : Nat) : Int) - 2^32

/-- The array access `spi_flash_partitions[partition]` with a signed index. -/
def partitionAt (tbl : List Partition) (partition : Int) : Except Fault Partition :=
  if partition < 0 then .error .outOfBounds
  else match tbl.get? partition.toNat with
    | some p => .ok p
    | none => .error .outOfBounds

/-! ## Transport and low-level commands -/

/-- Models `RETARGET_SpiTransferHalf(SPI_FLASH_CS, tx, len(tx), rx, rxlen)`: the chip
advances, the frame is logged, and the first `rxlen` received bytes are
returned. -/
def RETARGET_SpiTransferHalf {σ : Type} (T : Transport σ) (w : World σ)
    (tx : List Nat) (rxlen : Nat) : World σ × List Nat :=
  let r := T w.chip tx rxlen
  ({ w with chip := r.1, log := w.log ++ [{ tx := tx, rxlen := rxlen }] }, r.2.take rxlen)

def spi_flash_cmd {σ : Type} (T : Transport σ) (w : World σ) (cmd : Nat) : World σ :=
  (RETARGET_SpiTransferHalf T w [cmd] 0).1

/-- Status read: one `0x05` frame, one byte back. -/
def spi_flash_status {σ : Type} (T : Transport σ) (w : World σ) : World σ × Nat :=
  let r := RETARGET_SpiTransferHalf T w [0x05] 1
  (r.1, r.2.headD 0)

/-- The loop `while(spi_flash_status() & 0x01);` -/
def spi_flash_wait_busy {σ : Type} (T : Transport σ) : Nat → World σ → Except Fault (World σ)
  | 0, _ => .error .fuelExhausted
  | fuel + 1, w =>
    let r := spi_flash_status T w
    if r.2 &&& 0x01 ≠ 0 then spi_flash_wait_busy T fuel r.1 else .ok r.1

/-- The loop `while(!(spi_flash_status() & 0x02));` -/
def spi_flash_wait_wel {σ : Type} (T : Transport σ) : Nat → World σ → Except Fault (World σ)
  | 0, _ => .error .fuelExhausted
  | fuel + 1, w =>
    let r := spi_flash_status T w
    if r.2 &&& 0x02 = 0 then spi_flash_wait_wel T fuel r.1 else .ok r.1

/-! ## Power management and initialisation -/

def spi_flash_suspend {σ : Type} (T : Transport σ) (fuel : Nat) (w : World σ) :
    Except Fault (World σ) := do
  let w1 ← spi_flash_wait_busy T fuel w
  let w2 := (RETARGET_SpiTransferHalf T w1 [0xB9] 0).1
  pure { w2 with spi_flash_sleeping := 1 }

def spi_flash_resume {σ : Type} (T : Transport σ) (fuel : Nat) (w : World σ) :
    Except Fault (World σ) :=
  if w.spi_flash_sleeping = 0 then pure w
  else do
    let w1 := (RETARGET_SpiTransferHalf T w [0xAB] 0).1
    let w2 ← spi_flash_wait_busy T fuel w1
    pure { w2 with spi_flash_sleeping := 0 }

/-- Body of the `for` loop of `spi_flash_init` for index `i`. -/
def initStep (tbl : List Partition) (i : Nat) : List Partition :=
  match tbl.get? i with
  | some p => tbl.set i { p with size := sub32 p.end_ p.start }
  | none => tbl

def spi_flash_init {σ : Type} (T : Transport σ) (fuel : Nat) (w : World σ) :
    Except Fault (World σ) := do
  let w1 ← spi_flash_resume T fuel w
  pure { w1 with
    spi_flash_partitions :=
      (List.range SPI_FLASH_PARTITIONS_COUNT.toNat).foldl initStep w1.spi_flash_partitions }

def spi_flash_mass_erase {σ : Type} (T : Transport σ) (fuel : Nat) (w : World σ) :
    Except Fault (World σ) := do
  let w ← spi_flash_resume T fuel w
  let w ← spi_flash_wait_busy T fuel w
  let w := spi_flash_cmd T w 0x06
  let w ← spi_flash_wait_wel T fuel w
  let w := spi_flash_cmd T w 0xC7
  let w ← spi_flash_wait_busy T fuel w
  let w := spi_flash_cmd T w 0x04
  spi_flash_wait_busy T fuel w

/-! ## Data operations -/

/-- Embedding of `spi_flash_read`; the result is the world, the `int32_t` return value and
the contents of `dst` afterwards. -/
def spi_flash_read {σ : Type} (T : Transport σ) (fuel : Nat) (w : World σ)
    (partition : Int) (addr size : Nat) (dst : List Nat) :
    Except Fault (World σ × Int × List Nat) :=
  if partition ≥ SPI_FLASH_PARTITIONS_COUNT then pure (w, -1, dst)
  else do
    let p ← partitionAt w.spi_flash_partitions partition
    if addr > p.size then pure (w, -1, dst)
    else do
      let w ← spi_flash_resume T fuel w
      let p ← partitionAt w.spi_flash_partitions partition
      let len := sub32 p.size addr
      let size := if size > len then len else size
      let addr := add32 addr p.start
      let w ← spi_flash_wait_busy T fuel w
      let buffer := [0x0B, (addr >>> 16) &&& 0xFF, (addr >>> 8) &&& 0xFF,
        (addr >>> 0) &&& 0xFF, 0xFF]
      let r := RETARGET_SpiTransferHalf T w buffer size
      pure (r.1, toInt32 size, r.2 ++ dst.drop r.2.length)

/-- Embedding of `spi_flash_write`; `src` is the caller's buffer, read at indices
`0 .. size-1`. -/
def spi_flash_write {σ : Type} (T : Transport σ) (fuel : Nat) (w : World σ)
    (partition : Int) (addr size : Nat) (src : List Nat) :
    Except Fault (World σ × Int) :=
  if partition ≥ SPI_FLASH_PARTITIONS_COUNT then pure (w, -1)
  else do
    let p ← partitionAt w.spi_flash_partitions partition
    if addr > p.size then pure (w, -1)
    else do
      let w ← spi_flash_resume T fuel w
      let p ← partitionAt w.spi_flash_partitions partition
      let len := sub32 p.size addr
      let size := if size > len then len else size
      let addr := add32 addr p.start
      let w ← spi_flash_wait_busy T fuel w
      let w := spi_flash_cmd T w 0x06
      let w ← spi_flash_wait_wel T fuel w
      let header := [0x02, (addr >>> 16) &&& 0xFF, (addr >>> 8) &&& 0xFF,
        (addr >>> 0) &&& 0xFF]
      let size := if size > 256 then 256 else size
      let payload := (List.range size).map (fun i => src.getD i 0)
      let w := (RETARGET_SpiTransferHalf T w (header ++ payload) 0).1
      let w ← spi_flash_wait_busy T fuel w
      let w := spi_flash_cmd T w 0x04
      let w ← spi_flash_wait_busy T fuel w
      pure (w, toInt32 size)

def spi_flash_erase {σ : Type} (T : Transport σ) (fuel : Nat) (w : World σ)
    (partition : Int) (addr size : Nat) : Except Fault (World σ × Int) :=
  if partition ≥ SPI_FLASH_PARTITIONS_COUNT then pure (w, -1)
  else do
    let p ← partitionAt w.spi_flash_partitions partition
    if addr > p.size then pure (w, -1)
    else
      let len := sub32 p.size addr
      let size := if size > len then len else size
      if size < 4096 then pure (w, -1)
      else do
        let addr := add32 addr p.start
        let w ← spi_flash_resume T fuel w
        let w ← spi_flash_wait_busy T fuel w
        let w := spi_flash_cmd T w 0x06
        let w ← spi_flash_wait_wel T fuel w
        let buffer := [0x20, (addr >>> 16) &&& 0xFF, (addr >>> 8) &&& 0xFF,
          (addr >>> 0) &&& 0xFF]
        let w := (RETARGET_SpiTransferHalf T w buffer 0).1
        let w ← spi_flash_wait_busy T fuel w
        let w := spi_flash_cmd T w 0x04
        let w ← spi_flash_wait_busy T fuel w
        pure (w, toInt32 size)

def spi_flash_size (tbl : List Partition) (partition : Int) : Except Fault Int :=
  if partition ≥ SPI_FLASH_PARTITIONS_COUNT then pure (-1)
  else do
    let p ← partitionAt tbl partition
    pure (toInt32 p.size)

def spi_flash_erase_size (partition : Int) : Int :=
  if partition ≥ SPI_FLASH_PARTITIONS_COUNT then -1 else 4096

/-! ## Vocabulary of the properties -/

/-- The two power states; the driver is `Active` exactly when
`spi_flash_sleeping` is zero. -/
inductive PowerState where
  | Active
  | Sleeping
  deriving DecidableEq, Repr

def World.powerState {σ : Type} (w : World σ) : PowerState :=
  if w.spi_flash_sleeping = 0 then .Active else .Sleeping

/-- The partition table once the loop of `spi_flash_init` has run over the
static table. -/
def spi_flash_partitions_ready : List Partition :=
  (List.range SPI_FLASH_PARTITIONS_COUNT.toNat).foldl initStep spi_flash_partitions_static

/-- The world is one in which `spi_flash_init` has filled in the sizes. -/
def AfterInit {σ : Type} (w : World σ) : Prop :=
  w.spi_flash_partitions = spi_flash_partitions_ready

/-- The frame of a status read. -/
def statusFrame : Frame := { tx := [0x05], rxlen := 1 }

/-- A frame carrying only the one-byte command `cmd`. -/
def cmdFrame (cmd : Nat) : Frame := { tx := [cmd], rxlen := 0 }

/-- Chip state after one status read. -/
def chipPoll {σ : Type} (T : Transport σ) (s : σ) : σ := (T s [0x05] 1).1

/-- Status byte the chip answers to a status read issued in state `s`. -/
def chipStatus {σ : Type} (T : Transport σ) (s : σ) : Nat := ((T s [0x05] 1).2.take 1).headD 0

/-- Chip state after `n` status reads. -/
def chipPolls {σ : Type} (T : Transport σ) : Nat → σ → σ
  | 0, s => s
  | n + 1, s => chipPolls T n (chipPoll T s)

/-- The reply to status read number `k` (counting from zero) has the busy bit
clear. -/
def ReadyAt {σ : Type} (T : Transport σ) (s : σ) (k : Nat) : Prop :=
  chipStatus T (chipPolls T k s) &&& 0x01 = 0

/-- The reply to status read number `k` has the write-enable latch set. -/
def WelAt {σ : Type} (T : Transport σ) (s : σ) (k : Nat) : Prop :=
  chipStatus T (chipPolls T k s) &&& 0x02 ≠ 0

/-- From every chip state, polling eventually reports not-busy. -/
def EventuallyReady {σ : Type} (T : Transport σ) : Prop :=
  ∀ s, ∃ k, ReadyAt T s k

/-- A chip that answers: polling eventually reports not-busy, and after a
write-enable command polling eventually reports the latch set. -/
def Responsive {σ : Type} (T : Transport σ) : Prop :=
  EventuallyReady T ∧ ∀ s, ∃ k, WelAt T (T s [0x06] 0).1 k

/-- The world after `n` status reads. -/
def polled {σ : Type} (T : Transport σ) (w : World σ) (n : Nat) : World σ :=
  { w with chip := chipPolls T n w.chip, log := w.log ++ List.replicate n statusFrame }

/-- The three address bytes of a command frame, most significant first. -/
def addrBytes (addr : Nat) : List Nat :=
  [(addr >>> 16) &&& 0xFF, (addr >>> 8) &&& 0xFF, (addr >>> 0) &&& 0xFF]

/-- The read-data frame for absolute address `addr` asking `n` bytes back. -/
def readFrame (addr n : Nat) : Frame := { tx := 0x0B :: addrBytes addr ++ [0xFF], rxlen := n }

/-- The page-program frame for absolute address `addr`. -/
def programFrame (addr : Nat) (payload : List Nat) : Frame :=
  { tx := 0x02 :: addrBytes addr ++ payload, rxlen := 0 }

/-- The sector-erase frame for absolute address `addr`. -/
def eraseFrame (addr : Nat) : Frame := { tx := 0x20 :: addrBytes addr, rxlen := 0 }

/-- Frames of the wake-up done by `spi_flash_resume` from world `w` when the
busy loop takes `n` status reads: nothing when already active. -/
def wakeFrames {σ : Type} (w : World σ) (n : Nat) : List Frame :=
  if w.spi_flash_sleeping = 0 then [] else cmdFrame 0xAB :: List.replicate n statusFrame

/-- The size after clipping to the bytes that remain in the partition. -/
def clipSize (part : Partition) (addr size : Nat) : Nat :=
  if size > sub32 part.size addr then sub32 part.size addr else size

/-- The size after the further clip to one page of 256 bytes. -/
def pageClip (n : Nat) : Nat := if n > 256 then 256 else n

/-- The bytes `src[0] .. src[n-1]` copied into the page-program buffer. -/
def payloadOf (src : List Nat) (n : Nat) : List Nat :=
  (List.range n).map (fun i => src.getD i 0)

/-! ## Simulated chip -/

/-- Modelled from the spec: the simulated chip against which the round trip is
checked (the repository has no chip model).  A byte array addressed by the
24-bit address, and the write-enable latch shown in the status byte. -/
structure SimChip where
  mem : Nat → Nat
  wel : Bool

/-- Modelled from the spec: page program stores the payload at consecutive
24-bit addresses starting at `a`. -/
def SimChip.program (mem : Nat → Nat) (a : Nat) : List Nat → Nat → Nat
  | [] => mem
  | b :: bs => SimChip.program (fun x => if x = a % 2^24 then b else mem x) (a + 1) bs

/-- Modelled from the spec: the address carried by three big-endian bytes. -/
def SimChip.address (a2 a1 a0 : Nat) : Nat := (a2 * 65536 + a1 * 256 + a0) % 2^24

/-- Modelled from the spec: the transport in front of the simulated chip.
Status is never busy and shows the latch after write-enable; page program
(`0x02`) stores the payload; read data (`0x0B`) returns consecutive bytes. -/
def simTransfer : Transport SimChip := fun c tx rxlen =>
  match tx with
  | [0x05] => (c, List.replicate rxlen (if c.wel then 0x02 else 0x00))
  | [0x06] => ({ c with wel := true }, List.replicate rxlen 0)
  | [0x04] => ({ c with wel := false }, List.replicate rxlen 0)
  | 0x02 :: a2 :: a1 :: a0 :: payload =>
    ({ c with mem := SimChip.program c.mem (SimChip.address a2 a1 a0) payload },
      List.replicate rxlen 0)
  | 0x0B :: a2 :: a1 :: a0 :: _ =>
    (c, (List.range rxlen).map (fun i => c.mem ((SimChip.address a2 a1 a0 + i) % 2^24)))
  | _ => (c, List.replicate rxlen 0)

/-- A blank simulated chip: erased memory, latch clear. -/
def SimChip.blank : SimChip := { mem := fun _ => 0xFF, wel := false }

/-- The world in which the simulated chip has been initialised from start-up. -/
def simReady : World SimChip :=
  { spi_flash_partitions := spi_flash_partitions_ready
    spi_flash_sleeping := 0
    chip := SimChip.blank
    log := [cmdFrame 0xAB, statusFrame] }

/-- The start and end offsets of a partition. -/
def Partition.bounds (q : Partition) : Nat × Nat := (q.start, q.end_)

/-- A chip that is slow to answer, for exercising the polling loops: its state
counts the status reads so far, the first two replies are busy with the latch
clear, every later one is ready with the latch set. -/
def slowTransfer : Transport Nat := fun n tx rxlen =>
  match tx with
  | [0x05] => (n + 1, List.replicate rxlen (if n < 2 then 0x01 else 0x02))
  | _ => (n, List.replicate rxlen 0)

/-- Start of the 4096-byte aligned sector that contains absolute address `a`. -/
def sectorStart (a : Nat) : Nat := a - a % 4096

/-- Modelled from the spec: the bytes of the chip that a frame addresses,
as `(first, count)`, by the command table of the chip.  Read data (`0x0B`,
three address bytes, dummy) addresses `rxlen` bytes from its address; page
program (`0x02`, three address bytes, payload) addresses one byte per payload
byte from its address; sector erase (`0x20`, three address bytes) addresses
the aligned 4096-byte sector around its address; chip erase (`0xC7`) addresses
the whole 24-bit space.  Status, write-enable, write-disable and the power
commands address no byte. -/
def addressedRange (f : Frame) : Option (Nat × Nat) :=
  match f.tx with
  | 0x0B :: a2 :: a1 :: a0 :: _ => some (SimChip.address a2 a1 a0, f.rxlen)
  | 0x02 :: a2 :: a1 :: a0 :: payload => some (SimChip.address a2 a1 a0, payload.length)
  | 0x20 :: a2 :: a1 :: a0 :: _ => some (sectorStart (SimChip.address a2 a1 a0), 4096)
  | [0xC7] => some (0, 2^24)
  | _ => none

/-- The world in which the initialised simulated chip has then been suspended. -/
def simAsleep : World SimChip :=
  { spi_flash_partitions := spi_flash_partitions_ready
    spi_flash_sleeping := 1
    chip := SimChip.blank
    log := [cmdFrame 0xAB, statusFrame, statusFrame, cmdFrame 0xB9] }

/-! ## Polling loops -/

theorem status_world {σ : Type} (T : Transport σ) (w : World σ) :
    (spi_flash_status T w).1 = polled T w 1 := rfl

theorem status_byte {σ : Type} (T : Transport σ) (w : World σ) :
    (spi_flash_status T w).2 = chipStatus T w.chip := rfl

theorem chipPolls_add {σ : Type} (T : Transport σ) (m n : Nat) (s : σ) :
    chipPolls T n (chipPolls T m s) = chipPolls T (m + n) s := by
  induction m generalizing s with
  | zero => simp [chipPolls]
  | succ m ih =>
    have h : m + 1 + n = (m + n) + 1 := by omega
    rw [h]
    simp only [chipPolls]
    exact ih _

theorem polled_polled {σ : Type} (T : Transport σ) (w : World σ) (m n : Nat) :
    polled T (polled T w m) n = polled T w (m + n) := by
  unfold polled
  simp only [chipPolls_add, List.append_assoc, List.replicate_add]

@[simp] theorem polled_partitions {σ : Type} (T : Transport σ) (w : World σ) (n : Nat) :
    (polled T w n).spi_flash_partitions = w.spi_flash_partitions := rfl

@[simp] theorem polled_sleeping {σ : Type} (T : Transport σ) (w : World σ) (n : Nat) :
    (polled T w n).spi_flash_sleeping = w.spi_flash_sleeping := rfl

@[simp] theorem polled_log {σ : Type} (T : Transport σ) (w : World σ) (n : Nat) :
    (polled T w n).log = w.log ++ List.replicate n statusFrame := rfl

@[simp] theorem polled_chip {σ : Type} (T : Transport σ) (w : World σ) (n : Nat) :
    (polled T w n).chip = chipPolls T n w.chip := rfl

/-- The busy loop stops at the first reply with the busy bit clear, after
exactly that many status reads. -/
theorem wait_busy_first {σ : Type} (T : Transport σ) :
    ∀ (k : Nat) (w : World σ), ReadyAt T w.chip k →
      ∃ j, j ≤ k ∧ ReadyAt T w.chip j ∧ (∀ i, i < j → ¬ ReadyAt T w.chip i) ∧
        ∀ fuel, j < fuel → spi_flash_wait_busy T fuel w = .ok (polled T w (j + 1)) := by
  have base : ∀ w : World σ, ReadyAt T w.chip 0 →
      ∀ fuel, 0 < fuel → spi_flash_wait_busy T fuel w = .ok (polled T w (0 + 1)) := by
    intro w h fuel hf
    obtain ⟨f, rfl⟩ : ∃ f, fuel = f + 1 := ⟨fuel - 1, by omega⟩
    have h0 : chipStatus T w.chip &&& 1 = 0 := h
    simp [spi_flash_wait_busy, status_world, status_byte, h0]
  intro k
  induction k with
  | zero =>
    intro w h
    exact ⟨0, le_refl _, h, fun i hi => absurd hi (Nat.not_lt_zero i), base w h⟩
  | succ k ih =>
    intro w h
    by_cases h0 : ReadyAt T w.chip 0
    · exact ⟨0, Nat.zero_le _, h0, fun i hi => absurd hi (Nat.not_lt_zero i), base w h0⟩
    · have h1 : ReadyAt T (polled T w 1).chip k := h
      obtain ⟨j, hjk, hj, hmin, hrun⟩ := ih (polled T w 1) h1
      refine ⟨j + 1, by omega, hj, ?_, ?_⟩
      · intro i hi
        cases i with
        | zero => exact h0
        | succ i => exact hmin i (by omega)
      · intro fuel hf
        obtain ⟨f, rfl⟩ : ∃ f, fuel = f + 1 := ⟨fuel - 1, by omega⟩
        have hb : ¬ (chipStatus T w.chip &&& 1 = 0) := h0
        have := hrun f (by omega)
        rw [polled_polled] at this
        simp only [spi_flash_wait_busy, status_world, status_byte, ne_eq, hb,
          not_false_eq_true, if_true]
        rw [this, Nat.add_comm 1 (j + 1)]

/-- The latch loop stops at the first reply with the WEL bit set, after exactly
that many status reads. -/
theorem wait_wel_first {σ : Type} (T : Transport σ) :
    ∀ (k : Nat) (w : World σ), WelAt T w.chip k →
      ∃ j, j ≤ k ∧ WelAt T w.chip j ∧ (∀ i, i < j → ¬ WelAt T w.chip i) ∧
        ∀ fuel, j < fuel → spi_flash_wait_wel T fuel w = .ok (polled T w (j + 1)) := by
  have base : ∀ w : World σ, WelAt T w.chip 0 →
      ∀ fuel, 0 < fuel → spi_flash_wait_wel T fuel w = .ok (polled T w (0 + 1)) := by
    intro w h fuel hf
    obtain ⟨f, rfl⟩ : ∃ f, fuel = f + 1 := ⟨fuel - 1, by omega⟩
    have h0 : ¬ (chipStatus T w.chip &&& 2 = 0) := h
    simp [spi_flash_wait_wel, status_world, status_byte, h0]
  intro k
  induction k with
  | zero =>
    intro w h
    exact ⟨0, le_refl _, h, fun i hi => absurd hi (Nat.not_lt_zero i), base w h⟩
  | succ k ih =>
    intro w h
    by_cases h0 : WelAt T w.chip 0
    · exact ⟨0, Nat.zero_le _, h0, fun i hi => absurd hi (Nat.not_lt_zero i), base w h0⟩
    · have h1 : WelAt T (polled T w 1).chip k := h
      obtain ⟨j, hjk, hj, hmin, hrun⟩ := ih (polled T w 1) h1
      refine ⟨j + 1, by omega, hj, ?_, ?_⟩
      · intro i hi
        cases i with
        | zero => exact h0
        | succ i => exact hmin i (by omega)
      · intro fuel hf
        obtain ⟨f, rfl⟩ : ∃ f, fuel = f + 1 := ⟨fuel - 1, by omega⟩
        have hb : chipStatus T w.chip &&& 2 = 0 := by
          by_contra hne
          exact h0 hne
        have := hrun f (by omega)
        rw [polled_polled] at this
        simp only [spi_flash_wait_wel, status_world, status_byte, hb, if_true]
        rw [this, Nat.add_comm 1 (j + 1)]

/-- With the first not-busy reply at index `k`, fuel for `k` reads or fewer is
not enough for the busy loop. -/
theorem wait_busy_short {σ : Type} (T : Transport σ) :
    ∀ (fuel k : Nat) (w : World σ), (∀ i, i < k → ¬ ReadyAt T w.chip i) → fuel ≤ k →
      spi_flash_wait_busy T fuel w = .error .fuelExhausted := by
  intro fuel
  induction fuel with
  | zero => intro k w _ _; rfl
  | succ f ih =>
    intro k w hmin hf
    cases k with
    | zero => omega
    | succ k =>
      have hb : ¬ (chipStatus T w.chip &&& 1 = 0) := hmin 0 (by omega)
      have hrec := ih k (polled T w 1) (fun i hi => hmin (i + 1) (by omega)) (by omega)
      simp only [spi_flash_wait_busy, status_world, status_byte, ne_eq, hb,
        not_false_eq_true, if_true]
      exact hrec

/-- With the first latch-set reply at index `k`, fuel for `k` reads or fewer is
not enough for the latch loop. -/
theorem wait_wel_short {σ : Type} (T : Transport σ) :
    ∀ (fuel k : Nat) (w : World σ), (∀ i, i < k → ¬ WelAt T w.chip i) → fuel ≤ k →
      spi_flash_wait_wel T fuel w = .error .fuelExhausted := by
  intro fuel
  induction fuel with
  | zero => intro k w _ _; rfl
  | succ f ih =>
    intro k w hmin hf
    cases k with
    | zero => omega
    | succ k =>
      have hb : chipStatus T w.chip &&& 2 = 0 := by
        by_contra hne
        exact hmin 0 (by omega) hne
      have hrec := ih k (polled T w 1) (fun i hi => hmin (i + 1) (by omega)) (by omega)
      simp only [spi_flash_wait_wel, status_world, status_byte, hb, if_true]
      exact hrec

/-- The mask `0x02` keeps bit 1 only. -/
theorem and_two_eq (x : Nat) : x &&& 2 = 2 * (x / 2 % 2) := by
  have h1 : (x &&& 2^1).testBit 1 = x.testBit 1 := by
    rw [Nat.testBit_and, Nat.testBit_two_pow_self, Bool.and_true]
  have h0 : (x &&& 2^1).testBit 0 = false := by
    rw [Nat.testBit_and, Nat.testBit_two_pow_of_ne (by decide), Bool.and_false]
  have hle : x &&& 2^1 ≤ 2^1 := Nat.and_le_right
  have e : x &&& 2 = x &&& 2^1 := rfl
  rw [e]
  generalize x &&& 2^1 = y at *
  rw [Nat.testBit_to_div_mod, Nat.testBit_to_div_mod] at h1
  rw [Nat.testBit_to_div_mod] at h0
  simp only [pow_one, pow_zero, Nat.div_one, decide_eq_false_iff_not, decide_eq_decide]
    at h0 h1 hle
  omega

/-- On a chip that eventually reports not-busy the busy loop returns, after
`n ≥ 1` status reads, whenever the fuel is at least `n`. -/
theorem wait_busy_total {σ : Type} (T : Transport σ) (hT : EventuallyReady T) (w : World σ) :
    ∃ n, 0 < n ∧ ∀ fuel, n ≤ fuel → spi_flash_wait_busy T fuel w = .ok (polled T w n) := by
  obtain ⟨k, hk⟩ := hT w.chip
  obtain ⟨j, _, _, _, hrun⟩ := wait_busy_first T k w hk
  exact ⟨j + 1, by omega, fun fuel hf => hrun fuel (by omega)⟩

/-- The same with the stopping condition spelled out: read number `n` is the
first whose reply has the busy bit clear. -/
theorem wait_busy_until {σ : Type} (T : Transport σ) (hT : EventuallyReady T) (w : World σ) :
    ∃ n, 0 < n ∧ ReadyAt T w.chip (n - 1) ∧ (∀ i, i + 1 < n → ¬ ReadyAt T w.chip i) ∧
      ∀ fuel, n ≤ fuel → spi_flash_wait_busy T fuel w = .ok (polled T w n) := by
  obtain ⟨k, hk⟩ := hT w.chip
  obtain ⟨j, _, hj, hmin, hrun⟩ := wait_busy_first T k w hk
  exact ⟨j + 1, by omega, hj, fun i hi => hmin i (by omega), fun fuel hf => hrun fuel (by omega)⟩

/-- After a write-enable command the latch loop returns on a responsive chip. -/
theorem wait_wel_total {σ : Type} (T : Transport σ) (hT : Responsive T) (w : World σ) :
    ∃ n, 0 < n ∧ ∀ fuel, n ≤ fuel →
      spi_flash_wait_wel T fuel (spi_flash_cmd T w 0x06) =
        .ok (polled T (spi_flash_cmd T w 0x06) n) := by
  obtain ⟨k, hk⟩ := hT.2 w.chip
  have hk2 : WelAt T (spi_flash_cmd T w 0x06).chip k := hk
  obtain ⟨j, _, _, _, hrun⟩ := wait_wel_first T k _ hk2
  exact ⟨j + 1, by omega, fun fuel hf => hrun fuel (by omega)⟩

/-! ## Operations on a responsive chip -/

@[simp] theorem except_bind_ok {ε α β : Type} (a : α) (f : α → Except ε β) :
    (Except.ok a >>= f) = f a := rfl

@[simp] theorem except_pure {ε α : Type} (a : α) : (pure a : Except ε α) = Except.ok a := rfl

theorem resume_total {σ : Type} (T : Transport σ) (hT : EventuallyReady T) (w : World σ) :
    ∃ n w1, 0 < n ∧ w1.spi_flash_sleeping = 0 ∧
      w1.spi_flash_partitions = w.spi_flash_partitions ∧
      w1.log = w.log ++ wakeFrames w n ∧
      ∀ fuel, n ≤ fuel → spi_flash_resume T fuel w = .ok w1 := by
  by_cases hs : w.spi_flash_sleeping = 0
  · refine ⟨1, w, by omega, hs, rfl, ?_, fun fuel _ => ?_⟩
    · simp [wakeFrames, hs]
    · simp [spi_flash_resume, hs]
  · obtain ⟨n, hn, hrun⟩ := wait_busy_total T hT (RETARGET_SpiTransferHalf T w [0xAB] 0).1
    refine ⟨n, { polled T (RETARGET_SpiTransferHalf T w [0xAB] 0).1 n with
      spi_flash_sleeping := 0 }, hn, rfl, rfl, ?_, fun fuel hf => ?_⟩
    · simp [wakeFrames, hs, RETARGET_SpiTransferHalf, cmdFrame]
    · simp only [spi_flash_resume, hs, if_false, hrun fuel hf, except_bind_ok, except_pure]

theorem suspend_total {σ : Type} (T : Transport σ) (hT : EventuallyReady T) (w : World σ) :
    ∃ n w1, 0 < n ∧ ReadyAt T w.chip (n - 1) ∧ (∀ i, i + 1 < n → ¬ ReadyAt T w.chip i) ∧
      w1.spi_flash_sleeping = 1 ∧ w1.spi_flash_partitions = w.spi_flash_partitions ∧
      w1.log = w.log ++ List.replicate n statusFrame ++ [cmdFrame 0xB9] ∧
      ∀ fuel, n ≤ fuel → spi_flash_suspend T fuel w = .ok w1 := by
  obtain ⟨n, hn, hready, hfirst, hrun⟩ := wait_busy_until T hT w
  refine ⟨n, { (RETARGET_SpiTransferHalf T (polled T w n) [0xB9] 0).1 with
    spi_flash_sleeping := 1 }, hn, hready, hfirst, rfl, rfl, rfl, fun fuel hf => ?_⟩
  simp only [spi_flash_suspend, hrun fuel hf, except_bind_ok, except_pure]

theorem cmd_partitions {σ : Type} (T : Transport σ) (w : World σ) (c : Nat) :
    (spi_flash_cmd T w c).spi_flash_partitions = w.spi_flash_partitions := rfl

theorem cmd_sleeping {σ : Type} (T : Transport σ) (w : World σ) (c : Nat) :
    (spi_flash_cmd T w c).spi_flash_sleeping = w.spi_flash_sleeping := rfl

theorem cmd_log {σ : Type} (T : Transport σ) (w : World σ) (c : Nat) :
    (spi_flash_cmd T w c).log = w.log ++ [cmdFrame c] := rfl

/-- Reading inside a partition returns on a chip that eventually reports
not-busy: the count is the clipped size, the driver ends awake, and the frames
are the wake-up (if asleep), status reads, and one read-data frame. -/
theorem read_ok {σ : Type} (T : Transport σ) (hT : EventuallyReady T) (w : World σ)
    (p : Int) (part : Partition) (hlt : p < 3)
    (hpart : partitionAt w.spi_flash_partitions p = .ok part)
    (addr size : Nat) (dst : List Nat) (ha : addr ≤ part.size) :
    ∃ n0 n1 w1 rx, 0 < n0 ∧ 0 < n1 ∧ rx.length ≤ clipSize part addr size ∧
      w1.spi_flash_sleeping = 0 ∧ w1.spi_flash_partitions = w.spi_flash_partitions ∧
      w1.log = w.log ++ wakeFrames w n0 ++ List.replicate n1 statusFrame ++
        [readFrame (add32 addr part.start) (clipSize part addr size)] ∧
      ∀ fuel, n0 + n1 ≤ fuel →
        spi_flash_read T fuel w p addr size dst =
          .ok (w1, toInt32 (clipSize part addr size), rx ++ dst.drop rx.length) := by
  obtain ⟨n0, wa, hn0, hsl, htbl, hlog, hres⟩ := resume_total T hT w
  obtain ⟨n1, hn1, hbusy⟩ := wait_busy_total T hT wa
  have hge : ¬ (p ≥ SPI_FLASH_PARTITIONS_COUNT) := by
    simp only [SPI_FLASH_PARTITIONS_COUNT]; omega
  have hgt : ¬ (addr > part.size) := by omega
  refine ⟨n0, n1, (RETARGET_SpiTransferHalf T (polled T wa n1)
      (0x0B :: addrBytes (add32 addr part.start) ++ [0xFF]) (clipSize part addr size)).1,
    (RETARGET_SpiTransferHalf T (polled T wa n1)
      (0x0B :: addrBytes (add32 addr part.start) ++ [0xFF]) (clipSize part addr size)).2,
    hn0, hn1, ?_, hsl, htbl, ?_, fun fuel hf => ?_⟩
  · simp [RETARGET_SpiTransferHalf, List.length_take]
  · simp [RETARGET_SpiTransferHalf, hlog, readFrame]
  · have hpart2 : partitionAt wa.spi_flash_partitions p = .ok part := by rw [htbl]; exact hpart
    simp only [spi_flash_read, hge, if_false, hpart, except_bind_ok, hgt,
      hres fuel (by omega), hpart2, hbusy fuel (by omega), except_pure]
    rfl

/-- Writing inside a partition returns on a responsive chip: the count is the
size clipped to the partition and to one page, and the frames are the wake-up
(if asleep), write-enable, one page-program frame and write-disable, each
followed or preceded by status reads as in the source. -/
theorem write_ok {σ : Type} (T : Transport σ) (hT : Responsive T) (w : World σ)
    (p : Int) (part : Partition) (hlt : p < 3)
    (hpart : partitionAt w.spi_flash_partitions p = .ok part)
    (addr size : Nat) (src : List Nat) (ha : addr ≤ part.size) :
    ∃ n0 n1 n2 n3 n4 w1, 0 < n0 ∧ 0 < n1 ∧ 0 < n2 ∧ 0 < n3 ∧ 0 < n4 ∧
      w1.spi_flash_sleeping = 0 ∧ w1.spi_flash_partitions = w.spi_flash_partitions ∧
      w1.log = w.log ++ wakeFrames w n0 ++ List.replicate n1 statusFrame ++ [cmdFrame 0x06] ++
        List.replicate n2 statusFrame ++
        [programFrame (add32 addr part.start)
          (payloadOf src (pageClip (clipSize part addr size)))] ++
        List.replicate n3 statusFrame ++ [cmdFrame 0x04] ++ List.replicate n4 statusFrame ∧
      ∀ fuel, n0 + n1 + n2 + n3 + n4 ≤ fuel →
        spi_flash_write T fuel w p addr size src =
          .ok (w1, toInt32 (pageClip (clipSize part addr size))) := by
  obtain ⟨n0, wa, hn0, hsl, htbl, hlog, hres⟩ := resume_total T hT.1 w
  obtain ⟨n1, hn1, hb1⟩ := wait_busy_total T hT.1 wa
  obtain ⟨n2, hn2, hwel⟩ := wait_wel_total T hT (polled T wa n1)
  obtain ⟨wc, hwc⟩ : ∃ x, x = (RETARGET_SpiTransferHalf T
      (polled T (spi_flash_cmd T (polled T wa n1) 0x06) n2)
      (0x02 :: addrBytes (add32 addr part.start) ++
        payloadOf src (pageClip (clipSize part addr size))) 0).1 := ⟨_, rfl⟩
  obtain ⟨n3, hn3, hb3⟩ := wait_busy_total T hT.1 wc
  obtain ⟨n4, hn4, hb4⟩ := wait_busy_total T hT.1 (spi_flash_cmd T (polled T wc n3) 0x04)
  have hge : ¬ (p ≥ SPI_FLASH_PARTITIONS_COUNT) := by
    simp only [SPI_FLASH_PARTITIONS_COUNT]; omega
  have hgt : ¬ (addr > part.size) := by omega
  refine ⟨n0, n1, n2, n3, n4, polled T (spi_flash_cmd T (polled T wc n3) 0x04) n4,
    hn0, hn1, hn2, hn3, hn4, ?_, ?_, ?_, fun fuel hf => ?_⟩
  · rw [hwc]; exact hsl
  · rw [hwc]; exact htbl
  · rw [hwc]
    simp [RETARGET_SpiTransferHalf, spi_flash_cmd, hlog, programFrame, cmdFrame]
  · have hpart2 : partitionAt wa.spi_flash_partitions p = .ok part := by rw [htbl]; exact hpart
    have e : (RETARGET_SpiTransferHalf T
        (polled T (spi_flash_cmd T (polled T wa n1) 0x06) n2)
        ([0x02, (add32 addr part.start >>> 16) &&& 0xFF, (add32 addr part.start >>> 8) &&& 0xFF,
            (add32 addr part.start >>> 0) &&& 0xFF] ++
          List.map (fun i => src.getD i 0)
            (List.range (if (if size > sub32 part.size addr then sub32 part.size addr else size)
              > 256 then 256 else
                (if size > sub32 part.size addr then sub32 part.size addr else size)))) 0).1
        = wc := by rw [hwc]; rfl
    simp only [spi_flash_write, hge, if_false, hpart, except_bind_ok, hgt,
      hres fuel (by omega), hpart2, hb1 fuel (by omega), hwel fuel (by omega), except_pure, e,
      hb3 fuel (by omega), hb4 fuel (by omega)]
    rfl

/-- Erasing at least one sector inside a partition returns on a responsive
chip: the count is the clipped size and exactly one sector-erase frame goes
out between write-enable and write-disable. -/
theorem erase_ok {σ : Type} (T : Transport σ) (hT : Responsive T) (w : World σ)
    (p : Int) (part : Partition) (hlt : p < 3)
    (hpart : partitionAt w.spi_flash_partitions p = .ok part)
    (addr size : Nat) (ha : addr ≤ part.size) (hmin : 4096 ≤ clipSize part addr size) :
    ∃ n0 n1 n2 n3 n4 w1, 0 < n0 ∧ 0 < n1 ∧ 0 < n2 ∧ 0 < n3 ∧ 0 < n4 ∧
      w1.spi_flash_sleeping = 0 ∧ w1.spi_flash_partitions = w.spi_flash_partitions ∧
      w1.log = w.log ++ wakeFrames w n0 ++ List.replicate n1 statusFrame ++ [cmdFrame 0x06] ++
        List.replicate n2 statusFrame ++ [eraseFrame (add32 addr part.start)] ++
        List.replicate n3 statusFrame ++ [cmdFrame 0x04] ++ List.replicate n4 statusFrame ∧
      ∀ fuel, n0 + n1 + n2 + n3 + n4 ≤ fuel →
        spi_flash_erase T fuel w p addr size = .ok (w1, toInt32 (clipSize part addr size)) := by
  obtain ⟨n0, wa, hn0, hsl, htbl, hlog, hres⟩ := resume_total T hT.1 w
  obtain ⟨n1, hn1, hb1⟩ := wait_busy_total T hT.1 wa
  obtain ⟨n2, hn2, hwel⟩ := wait_wel_total T hT (polled T wa n1)
  obtain ⟨wc, hwc⟩ : ∃ x, x = (RETARGET_SpiTransferHalf T
      (polled T (spi_flash_cmd T (polled T wa n1) 0x06) n2)
      (0x20 :: addrBytes (add32 addr part.start)) 0).1 := ⟨_, rfl⟩
  obtain ⟨n3, hn3, hb3⟩ := wait_busy_total T hT.1 wc
  obtain ⟨n4, hn4, hb4⟩ := wait_busy_total T hT.1 (spi_flash_cmd T (polled T wc n3) 0x04)
  have hge : ¬ (p ≥ SPI_FLASH_PARTITIONS_COUNT) := by
    simp only [SPI_FLASH_PARTITIONS_COUNT]; omega
  have hgt : ¬ (addr > part.size) := by omega
  have hsm : ¬ ((if size > sub32 part.size addr then sub32 part.size addr else size) < 4096) := by
    have := hmin
    simp only [clipSize] at this
    omega
  refine ⟨n0, n1, n2, n3, n4, polled T (spi_flash_cmd T (polled T wc n3) 0x04) n4,
    hn0, hn1, hn2, hn3, hn4, ?_, ?_, ?_, fun fuel hf => ?_⟩
  · rw [hwc]; exact hsl
  · rw [hwc]; exact htbl
  · rw [hwc]
    simp [RETARGET_SpiTransferHalf, spi_flash_cmd, hlog, eraseFrame, cmdFrame]
  · have e : (RETARGET_SpiTransferHalf T
        (polled T (spi_flash_cmd T (polled T wa n1) 0x06) n2)
        [0x20, (add32 addr part.start >>> 16) &&& 0xFF, (add32 addr part.start >>> 8) &&& 0xFF,
            (add32 addr part.start >>> 0) &&& 0xFF] 0).1 = wc := by rw [hwc]; rfl
    simp only [spi_flash_erase, hge, if_false, hpart, except_bind_ok, hgt, hsm,
      hres fuel (by omega), hb1 fuel (by omega), hwel fuel (by omega), except_pure, e,
      hb3 fuel (by omega), hb4 fuel (by omega)]
    rfl

/-- Erasing the whole chip returns on a responsive chip: the driver ends awake
and the frames are the wake-up (if asleep), write-enable, one chip-erase frame
and write-disable, with status reads in between as in the source. -/
theorem mass_erase_ok {σ : Type} (T : Transport σ) (hT : Responsive T) (w : World σ) :
    ∃ n0 n1 n2 n3 n4 w1, 0 < n0 ∧ 0 < n1 ∧ 0 < n2 ∧ 0 < n3 ∧ 0 < n4 ∧
      w1.spi_flash_sleeping = 0 ∧ w1.spi_flash_partitions = w.spi_flash_partitions ∧
      w1.log = w.log ++ wakeFrames w n0 ++ List.replicate n1 statusFrame ++ [cmdFrame 0x06] ++
        List.replicate n2 statusFrame ++ [cmdFrame 0xC7] ++
        List.replicate n3 statusFrame ++ [cmdFrame 0x04] ++ List.replicate n4 statusFrame ∧
      ∀ fuel, n0 + n1 + n2 + n3 + n4 ≤ fuel → spi_flash_mass_erase T fuel w = .ok w1 := by
  obtain ⟨n0, wa, hn0, hsl, htbl, hlog, hres⟩ := resume_total T hT.1 w
  obtain ⟨n1, hn1, hb1⟩ := wait_busy_total T hT.1 wa
  obtain ⟨n2, hn2, hwel⟩ := wait_wel_total T hT (polled T wa n1)
  obtain ⟨n3, hn3, hb3⟩ := wait_busy_total T hT.1
    (spi_flash_cmd T (polled T (spi_flash_cmd T (polled T wa n1) 0x06) n2) 0xC7)
  obtain ⟨n4, hn4, hb4⟩ := wait_busy_total T hT.1
    (spi_flash_cmd T (polled T
      (spi_flash_cmd T (polled T (spi_flash_cmd T (polled T wa n1) 0x06) n2) 0xC7) n3) 0x04)
  refine ⟨n0, n1, n2, n3, n4, polled T (spi_flash_cmd T (polled T
      (spi_flash_cmd T (polled T (spi_flash_cmd T (polled T wa n1) 0x06) n2) 0xC7) n3) 0x04) n4,
    hn0, hn1, hn2, hn3, hn4, hsl, htbl, ?_, fun fuel hf => ?_⟩
  · simp [RETARGET_SpiTransferHalf, spi_flash_cmd, hlog, cmdFrame]
  · simp only [spi_flash_mass_erase, hres fuel (by omega), except_bind_ok,
      hb1 fuel (by omega), hwel fuel (by omega), hb3 fuel (by omega), hb4 fuel (by omega)]

/-! ## Rejected calls -/

theorem read_invalid {σ : Type} (T : Transport σ) (fuel : Nat) (w : World σ) (p : Int)
    (hp : 3 ≤ p) (addr size : Nat) (dst : List Nat) :
    spi_flash_read T fuel w p addr size dst = .ok (w, -1, dst) := by
  have hge : p ≥ SPI_FLASH_PARTITIONS_COUNT := hp
  simp only [spi_flash_read, hge, if_true, except_pure]

theorem write_invalid {σ : Type} (T : Transport σ) (fuel : Nat) (w : World σ) (p : Int)
    (hp : 3 ≤ p) (addr size : Nat) (src : List Nat) :
    spi_flash_write T fuel w p addr size src = .ok (w, -1) := by
  have hge : p ≥ SPI_FLASH_PARTITIONS_COUNT := hp
  simp only [spi_flash_write, hge, if_true, except_pure]

theorem erase_invalid {σ : Type} (T : Transport σ) (fuel : Nat) (w : World σ) (p : Int)
    (hp : 3 ≤ p) (addr size : Nat) :
    spi_flash_erase T fuel w p addr size = .ok (w, -1) := by
  have hge : p ≥ SPI_FLASH_PARTITIONS_COUNT := hp
  simp only [spi_flash_erase, hge, if_true, except_pure]

theorem read_out_of_bounds {σ : Type} (T : Transport σ) (fuel : Nat) (w : World σ) (p : Int)
    (part : Partition) (hlt : p < 3) (hpart : partitionAt w.spi_flash_partitions p = .ok part)
    (addr size : Nat) (dst : List Nat) (ha : part.size < addr) :
    spi_flash_read T fuel w p addr size dst = .ok (w, -1, dst) := by
  have hge : ¬ (p ≥ SPI_FLASH_PARTITIONS_COUNT) := by
    simp only [SPI_FLASH_PARTITIONS_COUNT]; omega
  have hgt : addr > part.size := ha
  simp only [spi_flash_read, hge, if_false, hpart, except_bind_ok, hgt, if_true, except_pure]

theorem write_out_of_bounds {σ : Type} (T : Transport σ) (fuel : Nat) (w : World σ) (p : Int)
    (part : Partition) (hlt : p < 3) (hpart : partitionAt w.spi_flash_partitions p = .ok part)
    (addr size : Nat) (src : List Nat) (ha : part.size < addr) :
    spi_flash_write T fuel w p addr size src = .ok (w, -1) := by
  have hge : ¬ (p ≥ SPI_FLASH_PARTITIONS_COUNT) := by
    simp only [SPI_FLASH_PARTITIONS_COUNT]; omega
  have hgt : addr > part.size := ha
  simp only [spi_flash_write, hge, if_false, hpart, except_bind_ok, hgt, if_true, except_pure]

theorem erase_out_of_bounds {σ : Type} (T : Transport σ) (fuel : Nat) (w : World σ) (p : Int)
    (part : Partition) (hlt : p < 3) (hpart : partitionAt w.spi_flash_partitions p = .ok part)
    (addr size : Nat) (ha : part.size < addr) :
    spi_flash_erase T fuel w p addr size = .ok (w, -1) := by
  have hge : ¬ (p ≥ SPI_FLASH_PARTITIONS_COUNT) := by
    simp only [SPI_FLASH_PARTITIONS_COUNT]; omega
  have hgt : addr > part.size := ha
  simp only [spi_flash_erase, hge, if_false, hpart, except_bind_ok, hgt, if_true, except_pure]

theorem erase_too_small {σ : Type} (T : Transport σ) (fuel : Nat) (w : World σ) (p : Int)
    (part : Partition) (hlt : p < 3) (hpart : partitionAt w.spi_flash_partitions p = .ok part)
    (addr size : Nat) (ha : addr ≤ part.size) (hsmall : clipSize part addr size < 4096) :
    spi_flash_erase T fuel w p addr size = .ok (w, -1) := by
  have hge : ¬ (p ≥ SPI_FLASH_PARTITIONS_COUNT) := by
    simp only [SPI_FLASH_PARTITIONS_COUNT]; omega
  have hgt : ¬ (addr > part.size) := by omega
  have hsm : (if size > sub32 part.size addr then sub32 part.size addr else size) < 4096 := hsmall
  simp only [spi_flash_erase, hge, if_false, hpart, except_bind_ok, hgt, hsm, if_true,
    except_pure]

/-! ## The table after initialisation -/

theorem partitions_ready_eq : spi_flash_partitions_ready =
    [ { start := 0,        end_ := 0x4000,   size := 0x4000 },
      { start := 0x4000,   end_ := 0x100000, size := 0xFC000 },
      { start := 0x100000, end_ := 0x800000, size := 0x700000 } ] := by
  decide

/-- After initialisation every valid index names a partition whose size is
`end - start`, which lies inside the 8 MiB chip, and `spi_flash_size` reports
that size unchanged. -/
theorem afterInit_partition {σ : Type} (w : World σ) (hw : AfterInit w) (p : Int)
    (h0 : 0 ≤ p) (h3 : p < 3) :
    ∃ part, partitionAt w.spi_flash_partitions p = .ok part ∧
      spi_flash_size w.spi_flash_partitions p = .ok (part.size : Int) ∧
      part.start + part.size = part.end_ ∧ part.end_ ≤ 0x800000 ∧
      part.size = (if p = 0 then 0x4000 else if p = 1 then 0xFC000 else 0x700000) := by
  have hw2 : w.spi_flash_partitions = _ := hw.trans partitions_ready_eq
  have hcases : p = 0 ∨ p = 1 ∨ p = 2 := by omega
  rcases hcases with rfl | rfl | rfl
  · refine ⟨{ start := 0, end_ := 0x4000, size := 0x4000 }, ?_, ?_, ?_, ?_, ?_⟩
    · rw [hw2]; rfl
    · rw [hw2]; rfl
    · rfl
    · decide
    · rfl
  · refine ⟨{ start := 0x4000, end_ := 0x100000, size := 0xFC000 }, ?_, ?_, ?_, ?_, ?_⟩
    · rw [hw2]; rfl
    · rw [hw2]; rfl
    · rfl
    · decide
    · rfl
  · refine ⟨{ start := 0x100000, end_ := 0x800000, size := 0x700000 }, ?_, ?_, ?_, ?_, ?_⟩
    · rw [hw2]; rfl
    · rw [hw2]; rfl
    · rfl
    · decide
    · rfl

/-! ## The simulated chip answers -/

theorem sim_status (c : SimChip) : chipStatus simTransfer c = if c.wel then 0x02 else 0x00 := by
  cases c with
  | mk mem wel => cases wel <;> rfl

theorem sim_poll (c : SimChip) : chipPoll simTransfer c = c := rfl

theorem sim_polls (n : Nat) (c : SimChip) : chipPolls simTransfer n c = c := by
  induction n with
  | zero => rfl
  | succ n ih => simp only [chipPolls, sim_poll, ih]

theorem sim_responsive : Responsive simTransfer := by
  constructor
  · intro c
    refine ⟨0, ?_⟩
    show chipStatus simTransfer c &&& 1 = 0
    rw [sim_status]
    cases c.wel <;> decide
  · intro c
    refine ⟨0, ?_⟩
    show chipStatus simTransfer (simTransfer c [0x06] 0).1 &&& 2 ≠ 0
    have hwel : (simTransfer c [0x06] 0).1.wel = true := rfl
    rw [sim_status, hwel]
    decide

theorem simReady_afterInit : AfterInit simReady := rfl

theorem sim_init (fuel : Nat) (hf : 0 < fuel) :
    spi_flash_init simTransfer fuel (World.initial SimChip.blank) = .ok simReady := by
  obtain ⟨f, rfl⟩ : ∃ f, fuel = f + 1 := ⟨fuel - 1, by omega⟩
  rfl

theorem sim_wait_busy (f : Nat) (w : World SimChip) :
    spi_flash_wait_busy simTransfer (f + 1) w = .ok (polled simTransfer w 1) := by
  have h0 : chipStatus simTransfer w.chip &&& 1 = 0 := by
    rw [sim_status]
    cases w.chip.wel <;> decide
  simp [spi_flash_wait_busy, status_world, status_byte, h0]

theorem sim_wait_wel (f : Nat) (w : World SimChip) (hwel : w.chip.wel = true) :
    spi_flash_wait_wel simTransfer (f + 1) w = .ok (polled simTransfer w 1) := by
  have h0 : ¬ (chipStatus simTransfer w.chip &&& 2 = 0) := by
    rw [sim_status, hwel]
    decide
  simp [spi_flash_wait_wel, status_world, status_byte, h0]

theorem sim_resume (f : Nat) (w : World SimChip) :
    ∃ wa, spi_flash_resume simTransfer (f + 1) w = .ok wa ∧ wa.chip = w.chip ∧
      wa.spi_flash_sleeping = 0 ∧ wa.spi_flash_partitions = w.spi_flash_partitions := by
  by_cases hs : w.spi_flash_sleeping = 0
  · exact ⟨w, by simp [spi_flash_resume, hs], rfl, hs, rfl⟩
  · refine ⟨{ polled simTransfer (RETARGET_SpiTransferHalf simTransfer w [0xAB] 0).1 1 with
      spi_flash_sleeping := 0 }, ?_, ?_, rfl, rfl⟩
    · simp only [spi_flash_resume, hs, if_false, sim_wait_busy, except_bind_ok, except_pure]
    · simp only [polled_chip, sim_polls]
      rfl

/-- The three address bytes decode to the low 24 bits of the address. -/
theorem address_addrBytes (x : Nat) :
    SimChip.address ((x >>> 16) &&& 0xFF) ((x >>> 8) &&& 0xFF) ((x >>> 0) &&& 0xFF)
      = x % 2^24 := by
  have h255 : (0xFF : Nat) = 2^8 - 1 := by decide
  simp only [SimChip.address, h255, Nat.and_pow_two_sub_one_eq_mod, Nat.shiftRight_eq_div_pow]
  omega

theorem program_below (bs : List Nat) :
    ∀ (mem : Nat → Nat) (a x : Nat), x < a → a + bs.length ≤ 2^24 →
      SimChip.program mem a bs x = mem x := by
  induction bs with
  | nil => intro mem a x _ _; rfl
  | cons b bs ih =>
    intro mem a x hx hlen
    simp only [List.length_cons] at hlen
    simp only [SimChip.program]
    rw [ih _ (a + 1) x (by omega) (by omega)]
    have hmod : a % 2^24 = a := Nat.mod_eq_of_lt (by omega)
    have hne : ¬ (x = a % 2^24) := by rw [hmod]; omega
    simp only [hne, if_false]

/-- Page program on the simulated chip leaves byte `i` of the payload at
address `a + i`, as long as the payload ends inside the 24-bit space. -/
theorem program_at (bs : List Nat) :
    ∀ (mem : Nat → Nat) (a i : Nat) (hi : i < bs.length), a + bs.length ≤ 2^24 →
      SimChip.program mem a bs (a + i) = bs[i] := by
  induction bs with
  | nil => intro mem a i hi; simp at hi
  | cons b bs ih =>
    intro mem a i hi hlen
    simp only [List.length_cons] at hlen hi
    simp only [SimChip.program]
    cases i with
    | zero =>
      show SimChip.program _ (a + 1) bs a = _
      rw [program_below bs _ (a + 1) a (by omega) (by omega)]
      have hmod : a % 2^24 = a := Nat.mod_eq_of_lt (by omega)
      show (if a = a % 2^24 then b else mem a) = b
      rw [hmod, if_pos rfl]
    | succ i =>
      have e : a + (i + 1) = (a + 1) + i := by omega
      rw [e, ih _ (a + 1) i (by omega) (by omega)]
      simp

/-- Writing on the simulated chip: any positive fuel is enough, and the chip
memory afterwards is the old memory with the payload programmed at the
address carried by the frame. -/
theorem sim_write (w : World SimChip) (p : Int) (part : Partition) (hlt : p < 3)
    (hpart : partitionAt w.spi_flash_partitions p = .ok part)
    (addr size : Nat) (src : List Nat) (ha : addr ≤ part.size) (f : Nat) :
    ∃ w1, spi_flash_write simTransfer (f + 1) w p addr size src =
        .ok (w1, toInt32 (pageClip (clipSize part addr size))) ∧
      w1.spi_flash_sleeping = 0 ∧ w1.spi_flash_partitions = w.spi_flash_partitions ∧
      w1.chip.mem = SimChip.program w.chip.mem ((add32 addr part.start) % 2^24)
        (payloadOf src (pageClip (clipSize part addr size))) := by
  obtain ⟨wa, hres, hchip, hsl, htbl⟩ := sim_resume f w
  have hge : ¬ (p ≥ SPI_FLASH_PARTITIONS_COUNT) := by
    simp only [SPI_FLASH_PARTITIONS_COUNT]; omega
  have hgt : ¬ (addr > part.size) := by omega
  have hpart2 : partitionAt wa.spi_flash_partitions p = .ok part := by rw [htbl]; exact hpart
  have hwel := sim_wait_wel f (spi_flash_cmd simTransfer (polled simTransfer wa 1) 0x06) rfl
  refine ⟨polled simTransfer (spi_flash_cmd simTransfer (polled simTransfer
      (RETARGET_SpiTransferHalf simTransfer
        (polled simTransfer (spi_flash_cmd simTransfer (polled simTransfer wa 1) 0x06) 1)
        (0x02 :: addrBytes (add32 addr part.start) ++
          payloadOf src (pageClip (clipSize part addr size))) 0).1 1) 0x04) 1, ?_, ?_, ?_, ?_⟩
  · simp only [spi_flash_write, hge, if_false, hpart, except_bind_ok, hgt, hres, hpart2,
      sim_wait_busy, hwel, except_pure]
    rfl
  · exact hsl
  · exact htbl
  · simp only [polled_chip, sim_polls]
    show SimChip.program (chipPolls simTransfer 1 (simTransfer (chipPolls simTransfer 1 wa.chip)
      [0x06] 0).1).mem _ _ = _
    rw [sim_polls, sim_polls, address_addrBytes, hchip]
    rfl

/-- Reading on the simulated chip while awake: any positive fuel is enough,
and the bytes stored in `dst` are the memory contents at consecutive addresses
from the address carried by the frame. -/
theorem sim_read (w : World SimChip) (p : Int) (part : Partition) (hlt : p < 3)
    (hpart : partitionAt w.spi_flash_partitions p = .ok part)
    (addr size : Nat) (dst : List Nat) (ha : addr ≤ part.size) (f : Nat) :
    ∃ w1 rx, spi_flash_read simTransfer (f + 1) w p addr size dst =
        .ok (w1, toInt32 (clipSize part addr size), rx ++ dst.drop rx.length) ∧
      rx = (List.range (clipSize part addr size)).map
        (fun i => w.chip.mem (((add32 addr part.start) % 2^24 + i) % 2^24)) := by
  obtain ⟨wa, hres, hchip, hsl, htbl⟩ := sim_resume f w
  have hge : ¬ (p ≥ SPI_FLASH_PARTITIONS_COUNT) := by
    simp only [SPI_FLASH_PARTITIONS_COUNT]; omega
  have hgt : ¬ (addr > part.size) := by omega
  have hpart2 : partitionAt wa.spi_flash_partitions p = .ok part := by rw [htbl]; exact hpart
  refine ⟨(RETARGET_SpiTransferHalf simTransfer (polled simTransfer wa 1)
      (0x0B :: addrBytes (add32 addr part.start) ++ [0xFF]) (clipSize part addr size)).1,
    (RETARGET_SpiTransferHalf simTransfer (polled simTransfer wa 1)
      (0x0B :: addrBytes (add32 addr part.start) ++ [0xFF]) (clipSize part addr size)).2,
    ?_, ?_⟩
  · simp only [spi_flash_read, hge, if_false, hpart, except_bind_ok, hgt, hres, hpart2,
      sim_wait_busy, except_pure]
    rfl
  · show List.take _ (List.map (fun i => (chipPolls simTransfer 1 wa.chip).mem
      ((SimChip.address _ _ _ + i) % 2^24)) (List.range _)) = _
    rw [sim_polls, address_addrBytes, hchip]
    apply List.take_of_length_le
    simp

/-! ## Arithmetic of the clipped sizes -/

theorem toInt32_of_lt (n : Nat) (h : n < 2^31) : toInt32 n = (n : Int) := by
  have h1 : n % 2^32 = n := Nat.mod_eq_of_lt (by omega)
  simp only [toInt32, h1, h, if_true]

theorem sub32_of_le (a b : Nat) (hba : b ≤ a) (ha : a < 2^32) : sub32 a b = a - b := by
  simp only [sub32]
  omega

theorem clipSize_eq (part : Partition) (addr size : Nat) (ha : addr ≤ part.size)
    (hs : part.size < 2^32) : clipSize part addr size = min size (part.size - addr) := by
  simp only [clipSize, sub32_of_le part.size addr ha hs]
  split <;> omega

theorem pageClip_eq (n : Nat) : pageClip n = min n 256 := by
  simp only [pageClip]
  split <;> omega

theorem payloadOf_eq_take (src : List Nat) (n : Nat) (h : n ≤ src.length) :
    payloadOf src n = src.take n := by
  apply List.ext_getElem
  · simp [payloadOf, h]
  · intro i h1 h2
    have hi : i < n := by simpa [payloadOf] using h1
    have hi2 : i < src.length := by omega
    simp [payloadOf, List.getD_eq_getElem?_getD, List.getElem?_eq_getElem hi2]

theorem programFrame_length (a : Nat) (payload : List Nat) :
    (programFrame a payload).tx.length = 4 + payload.length := by
  simp [programFrame, addrBytes]
  omega

theorem payloadOf_length (src : List Nat) (n : Nat) : (payloadOf src n).length = n := by
  simp [payloadOf]

/-- After initialisation the value reported by `spi_flash_size` for a valid
index is the `size` field of that partition. -/
theorem afterInit_size {σ : Type} (w : World σ) (hw : AfterInit w) (p : Int)
    (h0 : 0 ≤ p) (h3 : p < 3) (s : Int)
    (hs : spi_flash_size w.spi_flash_partitions p = .ok s) :
    ∃ part, partitionAt w.spi_flash_partitions p = .ok part ∧ s = (part.size : Int) ∧
      part.start + part.size = part.end_ ∧ part.end_ ≤ 0x800000 ∧
      part.size = (if p = 0 then 0x4000 else if p = 1 then 0xFC000 else 0x700000) := by
  obtain ⟨part, h1, h2, h4, h5, h6⟩ := afterInit_partition w hw p h0 h3
  refine ⟨part, h1, ?_, h4, h5, h6⟩
  rw [h2] at hs
  exact (Except.ok.inj hs).symm

/-- After initialisation a valid index names a partition that starts and ends
on a sector boundary inside the 8 MiB chip. -/
theorem afterInit_layout {σ : Type} (w : World σ) (hw : AfterInit w) (p : Int)
    (h0 : 0 ≤ p) (h3 : p < 3) (part : Partition)
    (hpart : partitionAt w.spi_flash_partitions p = .ok part) :
    part.start + part.size = part.end_ ∧ part.end_ ≤ 0x800000 ∧
      part.start % 4096 = 0 ∧ part.end_ % 4096 = 0 ∧
      spi_flash_size w.spi_flash_partitions p = .ok (part.size : Int) := by
  obtain ⟨part2, h1, h2, _, _, _⟩ := afterInit_partition w hw p h0 h3
  have hw2 : w.spi_flash_partitions = _ := hw.trans partitions_ready_eq
  have heq : part2 = part := Except.ok.inj (h1.symm.trans hpart)
  subst heq
  have hcases : p = 0 ∨ p = 1 ∨ p = 2 := by omega
  rw [hw2] at h1
  rcases hcases with rfl | rfl | rfl
  · have e : part2 = { start := 0, end_ := 0x4000, size := 0x4000 } :=
      (Except.ok.inj h1).symm
    subst e
    exact ⟨rfl, by decide, rfl, rfl, h2⟩
  · have e : part2 = { start := 0x4000, end_ := 0x100000, size := 0xFC000 } :=
      (Except.ok.inj h1).symm
    subst e
    exact ⟨rfl, by decide, rfl, rfl, h2⟩
  · have e : part2 = { start := 0x100000, end_ := 0x800000, size := 0x700000 } :=
      (Except.ok.inj h1).symm
    subst e
    exact ⟨rfl, by decide, rfl, rfl, h2⟩

/-- The wake frame is among the frames of an operation exactly when the driver
was asleep, and then it is the first of them. -/
theorem wake_first {σ : Type} (w : World σ) (n : Nat) (rest : List Frame)
    (hrest : cmdFrame 0xAB ∉ rest) :
    (cmdFrame 0xAB ∈ wakeFrames w n ++ rest ↔ w.powerState = .Sleeping) ∧
    (w.powerState = .Sleeping → (wakeFrames w n ++ rest).head? = some (cmdFrame 0xAB)) ∧
    (w.powerState = .Active → wakeFrames w n ++ rest = rest) := by
  by_cases hs : w.spi_flash_sleeping = 0
  · simp [wakeFrames, World.powerState, hs, hrest]
  · simp [wakeFrames, World.powerState, hs]

theorem wake_not_in_read (n : Nat) (a k : Nat) :
    cmdFrame 0xAB ∉ List.replicate n statusFrame ++ [readFrame a k] := by
  simp [List.mem_replicate, statusFrame, cmdFrame, readFrame]

theorem wake_not_in_write (n1 n2 n3 n4 : Nat) (a : Nat) (payload : List Nat) :
    cmdFrame 0xAB ∉ List.replicate n1 statusFrame ++ [cmdFrame 0x06] ++
      List.replicate n2 statusFrame ++ [programFrame a payload] ++
      List.replicate n3 statusFrame ++ [cmdFrame 0x04] ++ List.replicate n4 statusFrame := by
  simp [List.mem_replicate, statusFrame, cmdFrame, programFrame]

theorem wake_not_in_erase (n1 n2 n3 n4 : Nat) (a : Nat) :
    cmdFrame 0xAB ∉ List.replicate n1 statusFrame ++ [cmdFrame 0x06] ++
      List.replicate n2 statusFrame ++ [eraseFrame a] ++
      List.replicate n3 statusFrame ++ [cmdFrame 0x04] ++ List.replicate n4 statusFrame := by
  simp [List.mem_replicate, statusFrame, cmdFrame, eraseFrame]

theorem simAsleep_afterInit : AfterInit simAsleep := rfl

theorem sim_suspend (fuel : Nat) (hf : 0 < fuel) :
    spi_flash_suspend simTransfer fuel simReady = .ok simAsleep := by
  obtain ⟨f, rfl⟩ : ∃ f, fuel = f + 1 := ⟨fuel - 1, by omega⟩
  rfl

/-- The three address bytes are the base-256 digits of the low 24 bits. -/
theorem addrBytes_eq (a : Nat) :
    addrBytes a = [a / 65536 % 256, a / 256 % 256, a % 256] := by
  have h255 : (0xFF : Nat) = 2^8 - 1 := by decide
  simp only [addrBytes, h255, Nat.and_pow_two_sub_one_eq_mod, Nat.shiftRight_eq_div_pow]
  norm_num

theorem short_wake {σ : Type} (w : World σ) (n : Nat) :
    ∀ f ∈ wakeFrames w n, f.tx.length = 1 := by
  intro f hf
  unfold wakeFrames at hf
  split at hf
  · simp at hf
  · simp only [List.mem_cons, List.mem_replicate] at hf
    rcases hf with rfl | ⟨_, rfl⟩ <;> rfl

theorem short_polls (n : Nat) : ∀ f ∈ List.replicate n statusFrame, f.tx.length = 1 := by
  intro f hf
  rw [List.mem_replicate] at hf
  rw [hf.2]
  rfl

theorem short_cmd (c : Nat) : ∀ f ∈ [cmdFrame c], f.tx.length = 1 := by
  intro f hf
  rw [List.mem_singleton] at hf
  rw [hf]
  rfl

/-- In the frame sequence of a write-enabled operation with middle frame `m`,
write-enable, `m` and write-disable occur once each, and the wake frame occurs
once if the driver was asleep and not at all otherwise. -/
theorem sequence_counts {σ : Type} (w : World σ) (n0 n1 n2 n3 n4 : Nat) (m : Frame)
    (hm1 : m ≠ statusFrame) (hm2 : m ≠ cmdFrame 0x06) (hm3 : m ≠ cmdFrame 0x04)
    (hm4 : m ≠ cmdFrame 0xAB) (l : List Frame)
    (hl : l = wakeFrames w n0 ++ List.replicate n1 statusFrame ++ [cmdFrame 0x06] ++
      List.replicate n2 statusFrame ++ [m] ++ List.replicate n3 statusFrame ++
      [cmdFrame 0x04] ++ List.replicate n4 statusFrame) :
    l.count (cmdFrame 0x06) = 1 ∧ l.count m = 1 ∧ l.count (cmdFrame 0x04) = 1 ∧
    l.count (cmdFrame 0xAB) = (if w.powerState = .Sleeping then 1 else 0) := by
  have d1 : statusFrame ≠ cmdFrame 0x06 := by decide
  have d2 : statusFrame ≠ cmdFrame 0x04 := by decide
  have d3 : statusFrame ≠ cmdFrame 0xAB := by decide
  have d4 : cmdFrame 0x06 ≠ cmdFrame 0x04 := by decide
  have d5 : cmdFrame 0x06 ≠ cmdFrame 0xAB := by decide
  have d6 : cmdFrame 0x04 ≠ cmdFrame 0xAB := by decide
  have d7 : cmdFrame 0xAB ≠ cmdFrame 0x06 := by decide
  have d8 : cmdFrame 0xAB ≠ cmdFrame 0x04 := by decide
  have d9 : cmdFrame 0x04 ≠ cmdFrame 0x06 := by decide
  subst hl
  by_cases hs : w.spi_flash_sleeping = 0
  · simp [wakeFrames, World.powerState, hs, List.count_append, List.count_cons,
      List.count_replicate, d1, d2, d3, d4, d5, d6, d7, d8, d9, hm1, hm2, hm3, hm4,
      Ne.symm hm1, Ne.symm hm2, Ne.symm hm3, Ne.symm hm4]
  · simp [wakeFrames, World.powerState, hs, List.count_append, List.count_cons,
      List.count_replicate, d1, d2, d3, d4, d5, d6, d7, d8, d9, hm1, hm2, hm3, hm4,
      Ne.symm hm1, Ne.symm hm2, Ne.symm hm3, Ne.symm hm4]

theorem eraseFrame_length (a : Nat) : (eraseFrame a).tx.length = 4 := by
  simp [eraseFrame, addrBytes]

theorem programFrame_ne (a : Nat) (payload : List Nat) (f : Frame) (hf : f.tx.length = 1) :
    programFrame a payload ≠ f := by
  intro h
  have hlen := programFrame_length a payload
  rw [h] at hlen
  omega

theorem eraseFrame_ne (a : Nat) (f : Frame) (hf : f.tx.length = 1) : eraseFrame a ≠ f := by
  intro h
  have hlen := eraseFrame_length a
  rw [h] at hlen
  omega

/-! ## What a returned result tells -/

theorem except_bind_error {ε α β : Type} (e : ε) (f : α → Except ε β) :
    (Except.error e >>= f) = Except.error e := rfl

theorem except_bind_eq_ok {ε α β : Type} (x : Except ε α) (f : α → Except ε β) (b : β)
    (h : (x >>= f) = .ok b) : ∃ a, x = .ok a ∧ f a = .ok b := by
  cases x with
  | error e => rw [except_bind_error] at h; cases h
  | ok a => exact ⟨a, rfl, h⟩

/-- Whenever the busy loop returns, it has made some `n ≥ 1` status reads and
nothing else. -/
theorem wait_busy_inv {σ : Type} (T : Transport σ) :
    ∀ (fuel : Nat) (w w1 : World σ), spi_flash_wait_busy T fuel w = .ok w1 →
      ∃ n, 0 < n ∧ w1 = polled T w n := by
  intro fuel
  induction fuel with
  | zero => intro w w1 h; cases h
  | succ f ih =>
    intro w w1 h
    simp only [spi_flash_wait_busy, status_world, status_byte] at h
    split at h
    · obtain ⟨n, _, hn⟩ := ih _ _ h
      rw [polled_polled] at hn
      exact ⟨1 + n, by omega, hn⟩
    · exact ⟨1, by omega, (Except.ok.inj h).symm⟩

/-- Whenever the latch loop returns, it has made some `n ≥ 1` status reads and
nothing else. -/
theorem wait_wel_inv {σ : Type} (T : Transport σ) :
    ∀ (fuel : Nat) (w w1 : World σ), spi_flash_wait_wel T fuel w = .ok w1 →
      ∃ n, 0 < n ∧ w1 = polled T w n := by
  intro fuel
  induction fuel with
  | zero => intro w w1 h; cases h
  | succ f ih =>
    intro w w1 h
    simp only [spi_flash_wait_wel, status_world, status_byte] at h
    split at h
    · obtain ⟨n, _, hn⟩ := ih _ _ h
      rw [polled_polled] at hn
      exact ⟨1 + n, by omega, hn⟩
    · exact ⟨1, by omega, (Except.ok.inj h).symm⟩

/-- Whenever `spi_flash_resume` returns, the driver is awake and the table is
as before. -/
theorem resume_inv {σ : Type} (T : Transport σ) (fuel : Nat) (w w1 : World σ)
    (h : spi_flash_resume T fuel w = .ok w1) :
    w1.spi_flash_partitions = w.spi_flash_partitions ∧ w1.spi_flash_sleeping = 0 := by
  by_cases hs : w.spi_flash_sleeping = 0
  · simp only [spi_flash_resume, hs, if_true, except_pure] at h
    have e := Except.ok.inj h
    subst e
    exact ⟨rfl, hs⟩
  · simp only [spi_flash_resume, hs, if_false] at h
    obtain ⟨wa, hwait, hpure⟩ := except_bind_eq_ok _ _ _ h
    obtain ⟨n, _, hn⟩ := wait_busy_inv T fuel _ _ hwait
    have e := Except.ok.inj hpure
    subst e
    subst hn
    exact ⟨rfl, rfl⟩

/-- Whenever a read inside the partition returns, the value is the clipped
size converted to `int32_t`. -/
theorem read_inv {σ : Type} (T : Transport σ) (fuel : Nat) (w : World σ)
    (p : Int) (part : Partition) (hlt : p < 3)
    (hpart : partitionAt w.spi_flash_partitions p = .ok part)
    (addr size : Nat) (dst : List Nat) (ha : addr ≤ part.size)
    (w1 : World σ) (r : Int) (d : List Nat)
    (h : spi_flash_read T fuel w p addr size dst = .ok (w1, r, d)) :
    r = toInt32 (clipSize part addr size) := by
  have hge : ¬ (p ≥ SPI_FLASH_PARTITIONS_COUNT) := by
    simp only [SPI_FLASH_PARTITIONS_COUNT]; omega
  have hgt : ¬ (addr > part.size) := by omega
  simp only [spi_flash_read, hge, if_false, hpart, except_bind_ok, hgt] at h
  obtain ⟨wa, hres, h⟩ := except_bind_eq_ok _ _ _ h
  obtain ⟨htbl, _⟩ := resume_inv T fuel w wa hres
  have hpart2 : partitionAt wa.spi_flash_partitions p = .ok part := by rw [htbl]; exact hpart
  simp only [hpart2, except_bind_ok] at h
  obtain ⟨wb, _, h⟩ := except_bind_eq_ok _ _ _ h
  have e := Except.ok.inj h
  exact (Prod.mk.inj (Prod.mk.inj e).2).1.symm

/-- Whenever a write inside the partition returns, the value is the size
clipped to the partition and to one page, converted to `int32_t`. -/
theorem write_inv {σ : Type} (T : Transport σ) (fuel : Nat) (w : World σ)
    (p : Int) (part : Partition) (hlt : p < 3)
    (hpart : partitionAt w.spi_flash_partitions p = .ok part)
    (addr size : Nat) (src : List Nat) (ha : addr ≤ part.size)
    (w1 : World σ) (r : Int)
    (h : spi_flash_write T fuel w p addr size src = .ok (w1, r)) :
    r = toInt32 (pageClip (clipSize part addr size)) := by
  have hge : ¬ (p ≥ SPI_FLASH_PARTITIONS_COUNT) := by
    simp only [SPI_FLASH_PARTITIONS_COUNT]; omega
  have hgt : ¬ (addr > part.size) := by omega
  simp only [spi_flash_write, hge, if_false, hpart, except_bind_ok, hgt] at h
  obtain ⟨wa, hres, h⟩ := except_bind_eq_ok _ _ _ h
  obtain ⟨htbl, _⟩ := resume_inv T fuel w wa hres
  have hpart2 : partitionAt wa.spi_flash_partitions p = .ok part := by rw [htbl]; exact hpart
  simp only [hpart2, except_bind_ok] at h
  obtain ⟨wb, _, h⟩ := except_bind_eq_ok _ _ _ h
  obtain ⟨wc, _, h⟩ := except_bind_eq_ok _ _ _ h
  obtain ⟨wd, _, h⟩ := except_bind_eq_ok _ _ _ h
  obtain ⟨we, _, h⟩ := except_bind_eq_ok _ _ _ h
  have e := Except.ok.inj h
  exact (Prod.mk.inj e).2.symm

/-- Whenever an erase inside the partition returns, the value is `-1` if the
clipped size is below 4096 and the clipped size converted to `int32_t`
otherwise; in the first case the world is untouched. -/
theorem erase_inv {σ : Type} (T : Transport σ) (fuel : Nat) (w : World σ)
    (p : Int) (part : Partition) (hlt : p < 3)
    (hpart : partitionAt w.spi_flash_partitions p = .ok part)
    (addr size : Nat) (ha : addr ≤ part.size)
    (w1 : World σ) (r : Int)
    (h : spi_flash_erase T fuel w p addr size = .ok (w1, r)) :
    (clipSize part addr size < 4096 ∧ r = -1 ∧ w1 = w) ∨
    (4096 ≤ clipSize part addr size ∧ r = toInt32 (clipSize part addr size)) := by
  by_cases hsmall : clipSize part addr size < 4096
  · rw [erase_too_small T fuel w p part hlt hpart addr size ha hsmall] at h
    have e := Except.ok.inj h
    exact Or.inl ⟨hsmall, (Prod.mk.inj e).2.symm, (Prod.mk.inj e).1.symm⟩
  · have hge : ¬ (p ≥ SPI_FLASH_PARTITIONS_COUNT) := by
      simp only [SPI_FLASH_PARTITIONS_COUNT]; omega
    have hgt : ¬ (addr > part.size) := by omega
    have hsm : ¬ ((if size > sub32 part.size addr then sub32 part.size addr else size)
        < 4096) := hsmall
    simp only [spi_flash_erase, hge, if_false, hpart, except_bind_ok, hgt, hsm] at h
    obtain ⟨wa, _, h⟩ := except_bind_eq_ok _ _ _ h
    obtain ⟨wb, _, h⟩ := except_bind_eq_ok _ _ _ h
    obtain ⟨wc, _, h⟩ := except_bind_eq_ok _ _ _ h
    obtain ⟨wd, _, h⟩ := except_bind_eq_ok _ _ _ h
    obtain ⟨we, _, h⟩ := except_bind_eq_ok _ _ _ h
    have e := Except.ok.inj h
    exact Or.inr ⟨by omega, (Prod.mk.inj e).2.symm⟩

/-- A negative index faults in all three data operations: none of them
returns. -/
theorem negative_index_faults {σ : Type} (T : Transport σ) (fuel : Nat) (w : World σ)
    (p : Int) (hneg : p < 0) (addr size : Nat) (buf : List Nat) :
    spi_flash_read T fuel w p addr size buf = .error .outOfBounds ∧
    spi_flash_write T fuel w p addr size buf = .error .outOfBounds ∧
    spi_flash_erase T fuel w p addr size = .error .outOfBounds := by
  have hge : ¬ (p ≥ SPI_FLASH_PARTITIONS_COUNT) := by
    simp only [SPI_FLASH_PARTITIONS_COUNT]; omega
  have hpart : partitionAt w.spi_flash_partitions p = .error .outOfBounds := by
    simp only [partitionAt, hneg, if_true]
  refine ⟨?_, ?_, ?_⟩
  · simp only [spi_flash_read, hge, if_false, hpart, except_bind_error]
  · simp only [spi_flash_write, hge, if_false, hpart, except_bind_error]
  · simp only [spi_flash_erase, hge, if_false, hpart, except_bind_error]

/-! ## The frames of a returned call -/

/-- Whenever `spi_flash_resume` returns, the frames it sent are the wake-up
frames: none if the driver was awake. -/
theorem resume_inv_log {σ : Type} (T : Transport σ) (fuel : Nat) (w w1 : World σ)
    (h : spi_flash_resume T fuel w = .ok w1) :
    ∃ n, 0 < n ∧ w1.log = w.log ++ wakeFrames w n := by
  by_cases hs : w.spi_flash_sleeping = 0
  · simp only [spi_flash_resume, hs, if_true, except_pure] at h
    have e := Except.ok.inj h
    subst e
    exact ⟨1, by omega, by simp [wakeFrames, hs]⟩
  · simp only [spi_flash_resume, hs, if_false] at h
    obtain ⟨wa, hwait, hpure⟩ := except_bind_eq_ok _ _ _ h
    obtain ⟨n, hn0, hn⟩ := wait_busy_inv T fuel _ _ hwait
    have e := Except.ok.inj hpure
    subst e
    subst hn
    exact ⟨n, hn0, by simp [wakeFrames, hs, RETARGET_SpiTransferHalf, cmdFrame]⟩

/-- Whenever a read inside the partition returns, the frames it sent are the
wake-up (if asleep), status reads, and the one read-data frame. -/
theorem read_inv_log {σ : Type} (T : Transport σ) (fuel : Nat) (w : World σ)
    (p : Int) (part : Partition) (hlt : p < 3)
    (hpart : partitionAt w.spi_flash_partitions p = .ok part)
    (addr size : Nat) (dst : List Nat) (ha : addr ≤ part.size)
    (w1 : World σ) (r : Int) (d : List Nat)
    (h : spi_flash_read T fuel w p addr size dst = .ok (w1, r, d)) :
    ∃ n0 n1, 0 < n0 ∧ 0 < n1 ∧
      w1.log = w.log ++ wakeFrames w n0 ++ List.replicate n1 statusFrame ++
        [readFrame (add32 addr part.start) (clipSize part addr size)] := by
  have hge : ¬ (p ≥ SPI_FLASH_PARTITIONS_COUNT) := by
    simp only [SPI_FLASH_PARTITIONS_COUNT]; omega
  have hgt : ¬ (addr > part.size) := by omega
  simp only [spi_flash_read, hge, if_false, hpart, except_bind_ok, hgt] at h
  obtain ⟨wa, hres, h⟩ := except_bind_eq_ok _ _ _ h
  obtain ⟨htbl, _⟩ := resume_inv T fuel w wa hres
  obtain ⟨n0, hn0, hlog0⟩ := resume_inv_log T fuel w wa hres
  have hpart2 : partitionAt wa.spi_flash_partitions p = .ok part := by rw [htbl]; exact hpart
  simp only [hpart2, except_bind_ok] at h
  obtain ⟨wb, hbusy, h⟩ := except_bind_eq_ok _ _ _ h
  obtain ⟨n1, hn1, hwb⟩ := wait_busy_inv T fuel _ _ hbusy
  have e := (Prod.mk.inj (Except.ok.inj h)).1
  subst e
  subst hwb
  refine ⟨n0, n1, hn0, hn1, ?_⟩
  show (wa.log ++ List.replicate n1 statusFrame) ++ [readFrame _ _] = _
  rw [hlog0]
  rfl

/-- Whenever a write inside the partition returns, the frames it sent are the
wake-up (if asleep), write-enable, the one page-program frame and
write-disable, with status reads in between. -/
theorem write_inv_log {σ : Type} (T : Transport σ) (fuel : Nat) (w : World σ)
    (p : Int) (part : Partition) (hlt : p < 3)
    (hpart : partitionAt w.spi_flash_partitions p = .ok part)
    (addr size : Nat) (src : List Nat) (ha : addr ≤ part.size)
    (w1 : World σ) (r : Int)
    (h : spi_flash_write T fuel w p addr size src = .ok (w1, r)) :
    ∃ n0 n1 n2 n3 n4, 0 < n0 ∧ 0 < n1 ∧ 0 < n2 ∧ 0 < n3 ∧ 0 < n4 ∧
      w1.log = w.log ++ wakeFrames w n0 ++ List.replicate n1 statusFrame ++ [cmdFrame 0x06] ++
        List.replicate n2 statusFrame ++
        [programFrame (add32 addr part.start)
          (payloadOf src (pageClip (clipSize part addr size)))] ++
        List.replicate n3 statusFrame ++ [cmdFrame 0x04] ++ List.replicate n4 statusFrame := by
  have hge : ¬ (p ≥ SPI_FLASH_PARTITIONS_COUNT) := by
    simp only [SPI_FLASH_PARTITIONS_COUNT]; omega
  have hgt : ¬ (addr > part.size) := by omega
  simp only [spi_flash_write, hge, if_false, hpart, except_bind_ok, hgt] at h
  obtain ⟨wa, hres, h⟩ := except_bind_eq_ok _ _ _ h
  obtain ⟨htbl, _⟩ := resume_inv T fuel w wa hres
  obtain ⟨n0, hn0, hlog0⟩ := resume_inv_log T fuel w wa hres
  have hpart2 : partitionAt wa.spi_flash_partitions p = .ok part := by rw [htbl]; exact hpart
  simp only [hpart2, except_bind_ok] at h
  obtain ⟨wb, hb1, h⟩ := except_bind_eq_ok _ _ _ h
  obtain ⟨n1, hn1, hwb⟩ := wait_busy_inv T fuel _ _ hb1
  obtain ⟨wc, hb2, h⟩ := except_bind_eq_ok _ _ _ h
  obtain ⟨n2, hn2, hwc⟩ := wait_wel_inv T fuel _ _ hb2
  obtain ⟨wd, hb3, h⟩ := except_bind_eq_ok _ _ _ h
  obtain ⟨n3, hn3, hwd⟩ := wait_busy_inv T fuel _ _ hb3
  obtain ⟨we, hb4, h⟩ := except_bind_eq_ok _ _ _ h
  obtain ⟨n4, hn4, hwe⟩ := wait_busy_inv T fuel _ _ hb4
  have e := (Prod.mk.inj (Except.ok.inj h)).1
  subst e
  subst hwe
  subst hwd
  subst hwc
  subst hwb
  refine ⟨n0, n1, n2, n3, n4, hn0, hn1, hn2, hn3, hn4, ?_⟩
  show (((((((wa.log ++ List.replicate n1 statusFrame) ++ [cmdFrame 0x06]) ++
    List.replicate n2 statusFrame) ++ [programFrame _ _]) ++ List.replicate n3 statusFrame) ++
    [cmdFrame 0x04]) ++ List.replicate n4 statusFrame) = _
  rw [hlog0]
  rfl

/-- Whenever an erase of at least one sector inside the partition returns, the
frames it sent are the wake-up (if asleep), write-enable, the one sector-erase
frame and write-disable, with status reads in between. -/
theorem erase_inv_log {σ : Type} (T : Transport σ) (fuel : Nat) (w : World σ)
    (p : Int) (part : Partition) (hlt : p < 3)
    (hpart : partitionAt w.spi_flash_partitions p = .ok part)
    (addr size : Nat) (ha : addr ≤ part.size) (hmin : 4096 ≤ clipSize part addr size)
    (w1 : World σ) (r : Int)
    (h : spi_flash_erase T fuel w p addr size = .ok (w1, r)) :
    ∃ n0 n1 n2 n3 n4, 0 < n0 ∧ 0 < n1 ∧ 0 < n2 ∧ 0 < n3 ∧ 0 < n4 ∧
      w1.log = w.log ++ wakeFrames w n0 ++ List.replicate n1 statusFrame ++ [cmdFrame 0x06] ++
        List.replicate n2 statusFrame ++ [eraseFrame (add32 addr part.start)] ++
        List.replicate n3 statusFrame ++ [cmdFrame 0x04] ++ List.replicate n4 statusFrame := by
  have hge : ¬ (p ≥ SPI_FLASH_PARTITIONS_COUNT) := by
    simp only [SPI_FLASH_PARTITIONS_COUNT]; omega
  have hgt : ¬ (addr > part.size) := by omega
  have hsm : ¬ ((if size > sub32 part.size addr then sub32 part.size addr else size)
      < 4096) := by
    have := hmin
    simp only [clipSize] at this
    omega
  simp only [spi_flash_erase, hge, if_false, hpart, except_bind_ok, hgt, hsm] at h
  obtain ⟨wa, hres, h⟩ := except_bind_eq_ok _ _ _ h
  obtain ⟨n0, hn0, hlog0⟩ := resume_inv_log T fuel w wa hres
  obtain ⟨wb, hb1, h⟩ := except_bind_eq_ok _ _ _ h
  obtain ⟨n1, hn1, hwb⟩ := wait_busy_inv T fuel _ _ hb1
  obtain ⟨wc, hb2, h⟩ := except_bind_eq_ok _ _ _ h
  obtain ⟨n2, hn2, hwc⟩ := wait_wel_inv T fuel _ _ hb2
  obtain ⟨wd, hb3, h⟩ := except_bind_eq_ok _ _ _ h
  obtain ⟨n3, hn3, hwd⟩ := wait_busy_inv T fuel _ _ hb3
  obtain ⟨we, hb4, h⟩ := except_bind_eq_ok _ _ _ h
  obtain ⟨n4, hn4, hwe⟩ := wait_busy_inv T fuel _ _ hb4
  have e := (Prod.mk.inj (Except.ok.inj h)).1
  subst e
  subst hwe
  subst hwd
  subst hwc
  subst hwb
  refine ⟨n0, n1, n2, n3, n4, hn0, hn1, hn2, hn3, hn4, ?_⟩
  show (((((((wa.log ++ List.replicate n1 statusFrame) ++ [cmdFrame 0x06]) ++
    List.replicate n2 statusFrame) ++ [eraseFrame _]) ++ List.replicate n3 statusFrame) ++
    [cmdFrame 0x04]) ++ List.replicate n4 statusFrame) = _
  rw [hlog0]

/-! ## The bytes a frame addresses -/

theorem addressedRange_read (a n : Nat) :
    addressedRange (readFrame a n) = some (a % 2^24, n) := by
  show some (SimChip.address _ _ _, n) = _
  rw [address_addrBytes]

theorem addressedRange_program (a : Nat) (payload : List Nat) :
    addressedRange (programFrame a payload) = some (a % 2^24, payload.length) := by
  show some (SimChip.address _ _ _, payload.length) = _
  rw [address_addrBytes]

theorem addressedRange_erase (a : Nat) :
    addressedRange (eraseFrame a) = some (sectorStart (a % 2^24), 4096) := by
  show some (sectorStart (SimChip.address _ _ _), 4096) = _
  rw [address_addrBytes]

theorem addressedRange_wake {σ : Type} (w : World σ) (n : Nat) :
    ∀ f ∈ wakeFrames w n, addressedRange f = none := by
  intro f hf
  unfold wakeFrames at hf
  split at hf
  · simp at hf
  · simp only [List.mem_cons, List.mem_replicate] at hf
    rcases hf with rfl | ⟨_, rfl⟩ <;> rfl

/-- Among the frames of a read only the read-data frame addresses bytes. -/
theorem read_frames_addressed {σ : Type} (w : World σ) (n0 n1 : Nat) (m f : Frame)
    (hf : f ∈ wakeFrames w n0 ++ List.replicate n1 statusFrame ++ [m])
    (x : Nat × Nat) (hx : addressedRange f = some x) : f = m := by
  simp only [List.mem_append, List.mem_singleton, List.mem_replicate] at hf
  rcases hf with (hwk | ⟨_, rfl⟩) | rfl
  · rw [addressedRange_wake w n0 f hwk] at hx
    cases hx
  · cases hx
  · rfl

/-- Among the frames of a write-enabled operation only the middle frame
addresses bytes. -/
theorem op_frames_addressed {σ : Type} (w : World σ) (n0 n1 n2 n3 n4 : Nat) (m f : Frame)
    (hf : f ∈ wakeFrames w n0 ++ List.replicate n1 statusFrame ++ [cmdFrame 0x06] ++
      List.replicate n2 statusFrame ++ [m] ++ List.replicate n3 statusFrame ++
      [cmdFrame 0x04] ++ List.replicate n4 statusFrame)
    (x : Nat × Nat) (hx : addressedRange f = some x) : f = m := by
  simp only [List.mem_append, List.mem_singleton, List.mem_replicate] at hf
  rcases hf with (((((((hwk | ⟨_, rfl⟩) | rfl) | ⟨_, rfl⟩) | rfl) | ⟨_, rfl⟩) | rfl) | ⟨_, rfl⟩)
  · rw [addressedRange_wake w n0 f hwk] at hx
    cases hx
  · cases hx
  · cases hx
  · cases hx
  · rfl
  · cases hx
  · cases hx
  · cases hx

/-! ## Claims -/

/-- C1 (fails on the code for negative indices): at the out-of-range index
`-1` the call `spi_flash_erase_size(-1)` yields 4096, not the error value, and
the other four functions index the partition table below its first element. -/
theorem negative_partition_not_rejected :
    spi_flash_erase_size (-1) = 4096 ∧ spi_flash_erase_size (-1) ≠ -1 ∧
    spi_flash_size simReady.spi_flash_partitions (-1) = .error .outOfBounds ∧
    spi_flash_read simTransfer 8 simReady (-1) 0 1 [0] = .error .outOfBounds ∧
    spi_flash_write simTransfer 8 simReady (-1) 0 1 [0] = .error .outOfBounds ∧
    spi_flash_erase simTransfer 8 simReady (-1) 0 4096 = .error .outOfBounds := by
  refine ⟨by decide, by decide, rfl, rfl, rfl, rfl⟩

/-- The part of C1 that holds: for every index `p ≥ 3` all five functions
return `-1`, and the three data operations leave the world, bus log included,
untouched whatever the fuel. -/
theorem upper_invalid_partition_rejected {σ : Type} (T : Transport σ) (fuel : Nat)
    (w : World σ) (p : Int) (hp : 3 ≤ p) (addr size : Nat) (buf : List Nat) :
    spi_flash_size w.spi_flash_partitions p = .ok (-1) ∧
    spi_flash_erase_size p = -1 ∧
    spi_flash_read T fuel w p addr size buf = .ok (w, -1, buf) ∧
    spi_flash_write T fuel w p addr size buf = .ok (w, -1) ∧
    spi_flash_erase T fuel w p addr size = .ok (w, -1) := by
  have hge : p ≥ SPI_FLASH_PARTITIONS_COUNT := hp
  refine ⟨?_, ?_, read_invalid T fuel w p hp addr size buf,
    write_invalid T fuel w p hp addr size buf, erase_invalid T fuel w p hp addr size⟩
  · simp only [spi_flash_size, hge, if_true, except_pure]
  · simp only [spi_flash_erase_size, hge, if_true]

/-- C2: from any world whose table carries the static start and end offsets,
`spi_flash_init` returns on a chip that eventually reports not-busy; afterwards
`spi_flash_size(p)` is `end(p) - start(p)` for every valid `p`, namely 0x4000,
0xFC000 and 0x700000, and the partitions are contiguous from 0 to 0x800000. -/
theorem init_partition_sizes {σ : Type} (T : Transport σ) (hT : EventuallyReady T)
    (w0 : World σ)
    (hb : w0.spi_flash_partitions.map Partition.bounds =
      spi_flash_partitions_static.map Partition.bounds) :
    ∃ n w, (∀ fuel, n ≤ fuel → spi_flash_init T fuel w0 = .ok w) ∧ AfterInit w ∧
      (∀ p : Int, 0 ≤ p → p < 3 → ∃ part, partitionAt w.spi_flash_partitions p = .ok part ∧
        part.start ≤ part.end_ ∧
        spi_flash_size w.spi_flash_partitions p = .ok ((part.end_ : Int) - (part.start : Int))) ∧
      spi_flash_size w.spi_flash_partitions 0 = .ok 0x4000 ∧
      spi_flash_size w.spi_flash_partitions 1 = .ok 0xFC000 ∧
      spi_flash_size w.spi_flash_partitions 2 = .ok 0x700000 ∧
      ∃ a b c, w.spi_flash_partitions = [a, b, c] ∧ a.start = 0 ∧ a.end_ = b.start ∧
        b.end_ = c.start ∧ c.end_ = 0x800000 := by
  obtain ⟨n, w1, _, _, htbl, _, hres⟩ := resume_total T hT w0
  have hfold : (List.range SPI_FLASH_PARTITIONS_COUNT.toNat).foldl initStep
      w0.spi_flash_partitions = spi_flash_partitions_ready := by
    rcases hl : w0.spi_flash_partitions with _ | ⟨a, _ | ⟨b, _ | ⟨c, _ | ⟨d, l⟩⟩⟩⟩ <;>
      rw [hl] at hb <;>
      simp [spi_flash_partitions_static, Partition.bounds] at hb
    obtain ⟨⟨ha1, ha2⟩, ⟨hb1, hb2⟩, ⟨hc1, hc2⟩⟩ := hb
    obtain ⟨as, ae, az⟩ := a
    obtain ⟨bs, be, bz⟩ := b
    obtain ⟨cs, ce, cz⟩ := c
    simp only at ha1 ha2 hb1 hb2 hc1 hc2
    subst ha1 ha2 hb1 hb2 hc1 hc2
    rw [partitions_ready_eq]
    have hr : List.range SPI_FLASH_PARTITIONS_COUNT.toNat = [0, 1, 2] := rfl
    rw [hr]
    have e0 : sub32 0x4000 0 = 0x4000 := by decide
    have e1 : sub32 0x100000 0x4000 = 0xFC000 := by decide
    have e2 : sub32 0x800000 0x100000 = 0x700000 := by decide
    simp only [List.foldl, initStep, List.get?, List.set, e0, e1, e2]
  refine ⟨n, { w1 with spi_flash_partitions := spi_flash_partitions_ready }, ?_, rfl, ?_,
    rfl, rfl, rfl, ?_⟩
  · intro fuel hf
    simp only [spi_flash_init, hres fuel hf, except_bind_ok, except_pure, htbl, hfold]
  · intro p h0 h3
    obtain ⟨part, h1, h2, h3, _, _⟩ := afterInit_partition
      { w1 with spi_flash_partitions := spi_flash_partitions_ready } rfl p h0 h3
    refine ⟨part, h1, by omega, ?_⟩
    rw [h2]
    congr 1
    omega
  · exact ⟨_, _, _, partitions_ready_eq, rfl, rfl, rfl, rfl⟩

/-- C2 at the start-up state of the simulated chip. -/
theorem init_partition_sizes_witness :
    EventuallyReady simTransfer ∧
    ∃ n w, (∀ fuel, n ≤ fuel →
        spi_flash_init simTransfer fuel (World.initial SimChip.blank) = .ok w) ∧
      AfterInit w ∧
      (∀ p : Int, 0 ≤ p → p < 3 → ∃ part, partitionAt w.spi_flash_partitions p = .ok part ∧
        part.start ≤ part.end_ ∧
        spi_flash_size w.spi_flash_partitions p = .ok ((part.end_ : Int) - (part.start : Int))) ∧
      spi_flash_size w.spi_flash_partitions 0 = .ok 0x4000 ∧
      spi_flash_size w.spi_flash_partitions 1 = .ok 0xFC000 ∧
      spi_flash_size w.spi_flash_partitions 2 = .ok 0x700000 ∧
      ∃ a b c, w.spi_flash_partitions = [a, b, c] ∧ a.start = 0 ∧ a.end_ = b.start ∧
        b.end_ = c.start ∧ c.end_ = 0x800000 :=
  ⟨sim_responsive.1,
    init_partition_sizes simTransfer sim_responsive.1 (World.initial SimChip.blank) rfl⟩

/-- C3: after initialisation, for a valid partition `p` whose size is `s`, on a
responsive chip `spi_flash_read` and `spi_flash_write` both return, and the
value is the error value `-1` exactly when `addr > s`; at `addr = s` both
return 0. -/
theorem read_write_error_iff {σ : Type} (T : Transport σ) (hT : Responsive T) (w : World σ)
    (hw : AfterInit w) (p : Int) (h0 : 0 ≤ p) (h3 : p < 3) (s : Int)
    (hs : spi_flash_size w.spi_flash_partitions p = .ok s)
    (addr size : Nat) (dst src : List Nat) :
    ∃ N w1 r1 d1 w2 r2,
      (∀ fuel, N ≤ fuel →
        spi_flash_read T fuel w p addr size dst = .ok (w1, r1, d1) ∧
        spi_flash_write T fuel w p addr size src = .ok (w2, r2)) ∧
      (r1 = -1 ↔ s < (addr : Int)) ∧ (r2 = -1 ↔ s < (addr : Int)) ∧
      ((addr : Int) = s → r1 = 0 ∧ r2 = 0) := by
  obtain ⟨part, hpart, hsz, hse, hend, _⟩ := afterInit_size w hw p h0 h3 s hs
  by_cases hlt : part.size < addr
  · refine ⟨0, w, -1, dst, w, -1, fun fuel _ => ⟨?_, ?_⟩, ?_, ?_, ?_⟩
    · exact read_out_of_bounds T fuel w p part h3 hpart addr size dst hlt
    · exact write_out_of_bounds T fuel w p part h3 hpart addr size src hlt
    · constructor
      · intro _; omega
      · intro _; rfl
    · constructor
      · intro _; omega
      · intro _; rfl
    · intro h; omega
  · have ha : addr ≤ part.size := by omega
    obtain ⟨n0, n1, w1, rx, _, _, _, _, _, _, hread⟩ :=
      read_ok T hT.1 w p part h3 hpart addr size dst ha
    obtain ⟨m0, m1, m2, m3, m4, w2, _, _, _, _, _, _, _, _, hwrite⟩ :=
      write_ok T hT w p part h3 hpart addr size src ha
    have hc := clipSize_eq part addr size ha (by omega)
    have hpc := pageClip_eq (clipSize part addr size)
    have e1 : toInt32 (clipSize part addr size) = (clipSize part addr size : Int) :=
      toInt32_of_lt _ (by omega)
    have e2 : toInt32 (pageClip (clipSize part addr size)) =
        (pageClip (clipSize part addr size) : Int) := toInt32_of_lt _ (by omega)
    refine ⟨n0 + n1 + (m0 + m1 + m2 + m3 + m4), w1, _, _, w2, _,
      fun fuel hf => ⟨hread fuel (by omega), hwrite fuel (by omega)⟩, ?_, ?_, ?_⟩
    · rw [e1]
      constructor
      · intro h; omega
      · intro h; omega
    · rw [e2]
      constructor
      · intro h; omega
      · intro h; omega
    · intro h
      rw [e1, e2]
      omega

/-- C3 on the simulated chip, at the upper bound of partition 0. -/
theorem read_write_error_iff_witness :
    Responsive simTransfer ∧ AfterInit simReady ∧
    spi_flash_size simReady.spi_flash_partitions 0 = .ok 0x4000 ∧
    ∃ N w1 r1 d1 w2 r2,
      (∀ fuel, N ≤ fuel →
        spi_flash_read simTransfer fuel simReady 0 0x4000 16 [1, 2] = .ok (w1, r1, d1) ∧
        spi_flash_write simTransfer fuel simReady 0 0x4000 16 [3, 4] = .ok (w2, r2)) ∧
      (r1 = -1 ↔ (0x4000 : Int) < ((0x4000 : Nat) : Int)) ∧
      (r2 = -1 ↔ (0x4000 : Int) < ((0x4000 : Nat) : Int)) ∧
      ((((0x4000 : Nat) : Int)) = 0x4000 → r1 = 0 ∧ r2 = 0) :=
  ⟨sim_responsive, simReady_afterInit, rfl,
    read_write_error_iff simTransfer sim_responsive simReady simReady_afterInit 0
      (by decide) (by decide) 0x4000 rfl 0x4000 16 [1, 2] [3, 4]⟩

/-- C4: after initialisation, for a valid partition of size `s` and
`addr ≤ s`, on a chip that eventually reports not-busy `spi_flash_read` returns
`min(size, s - addr)` for every requested size, and the one read-data frame it
sends asks the transport for exactly that many bytes. -/
theorem read_returns_clipped {σ : Type} (T : Transport σ) (hT : EventuallyReady T)
    (w : World σ) (hw : AfterInit w) (p : Int) (h0 : 0 ≤ p) (h3 : p < 3) (s : Int)
    (hs : spi_flash_size w.spi_flash_partitions p = .ok s)
    (addr size : Nat) (dst : List Nat) (ha : (addr : Int) ≤ s) :
    ∃ n0 n1 w1 d1 a,
      (∀ fuel, n0 + n1 ≤ fuel →
        spi_flash_read T fuel w p addr size dst =
          .ok (w1, min (size : Int) (s - (addr : Int)), d1)) ∧
      w1.log = w.log ++ wakeFrames w n0 ++ List.replicate n1 statusFrame ++
        [readFrame a (min (size : Int) (s - (addr : Int))).toNat] := by
  obtain ⟨part, hpart, hsz, hse, hend, _⟩ := afterInit_size w hw p h0 h3 s hs
  have ha2 : addr ≤ part.size := by omega
  obtain ⟨n0, n1, w1, rx, _, _, _, _, _, hlog, hread⟩ :=
    read_ok T hT w p part h3 hpart addr size dst ha2
  have hc := clipSize_eq part addr size ha2 (by omega)
  have e1 : toInt32 (clipSize part addr size) = (clipSize part addr size : Int) :=
    toInt32_of_lt _ (by omega)
  have e2 : min (size : Int) (s - (addr : Int)) = (clipSize part addr size : Int) := by omega
  refine ⟨n0, n1, w1, rx ++ dst.drop rx.length, add32 addr part.start, ?_, ?_⟩
  · intro fuel hf
    rw [hread fuel hf, e1, e2]
  · rw [hlog, e2, Int.toNat_ofNat]

/-- C4 on the simulated chip: `read(2, 0, 0x900000, buf)` returns 7340032. -/
theorem read_returns_clipped_witness :
    ∃ N w1 d1, ∀ fuel, N ≤ fuel →
      spi_flash_read simTransfer fuel simReady 2 0 0x900000 [] = .ok (w1, 7340032, d1) := by
  obtain ⟨n0, n1, w1, d1, _, hrun, _⟩ :=
    read_returns_clipped simTransfer sim_responsive.1 simReady simReady_afterInit 2
      (by decide) (by decide) 0x700000 rfl 0 0x900000 [] (by decide)
  exact ⟨n0 + n1, w1, d1, hrun⟩

/-- C5: after initialisation, for a valid partition of size `s` and
`addr ≤ s`, on a responsive chip `spi_flash_write` returns
`min(size, s - addr, 256)`, and the one page-program frame it sends carries
exactly that many payload bytes, the first bytes of `src`. -/
theorem write_returns_clipped {σ : Type} (T : Transport σ) (hT : Responsive T)
    (w : World σ) (hw : AfterInit w) (p : Int) (h0 : 0 ≤ p) (h3 : p < 3) (s : Int)
    (hs : spi_flash_size w.spi_flash_partitions p = .ok s)
    (addr size : Nat) (src : List Nat) (ha : (addr : Int) ≤ s) :
    ∃ n0 n1 n2 n3 n4 w1 a, ∃ k : Nat,
      (k : Int) = min (min (size : Int) (s - (addr : Int))) 256 ∧
      (∀ fuel, n0 + n1 + n2 + n3 + n4 ≤ fuel →
        spi_flash_write T fuel w p addr size src = .ok (w1, (k : Int))) ∧
      w1.log = w.log ++ wakeFrames w n0 ++ List.replicate n1 statusFrame ++ [cmdFrame 0x06] ++
        List.replicate n2 statusFrame ++ [programFrame a (payloadOf src k)] ++
        List.replicate n3 statusFrame ++ [cmdFrame 0x04] ++ List.replicate n4 statusFrame ∧
      (payloadOf src k).length = k ∧
      (k ≤ src.length → payloadOf src k = src.take k) := by
  obtain ⟨part, hpart, hsz, hse, hend, _⟩ := afterInit_size w hw p h0 h3 s hs
  have ha2 : addr ≤ part.size := by omega
  obtain ⟨n0, n1, n2, n3, n4, w1, _, _, _, _, _, _, _, hlog, hwrite⟩ :=
    write_ok T hT w p part h3 hpart addr size src ha2
  have hc := clipSize_eq part addr size ha2 (by omega)
  have hpc := pageClip_eq (clipSize part addr size)
  have e1 : toInt32 (pageClip (clipSize part addr size)) =
      (pageClip (clipSize part addr size) : Int) := toInt32_of_lt _ (by omega)
  refine ⟨n0, n1, n2, n3, n4, w1, add32 addr part.start, pageClip (clipSize part addr size),
    by omega, ?_, hlog, payloadOf_length _ _, payloadOf_eq_take _ _⟩
  intro fuel hf
  rw [hwrite fuel hf, e1]

/-- C5 on the simulated chip: `write(0, 0, 300, data)` returns 256. -/
theorem write_returns_clipped_witness :
    ∃ N w1, ∀ fuel, N ≤ fuel →
      spi_flash_write simTransfer fuel simReady 0 0 300 (List.replicate 300 0xA5) =
        .ok (w1, 256) := by
  obtain ⟨n0, n1, n2, n3, n4, w1, _, k, hk, hrun, _⟩ :=
    write_returns_clipped simTransfer sim_responsive simReady simReady_afterInit 0
      (by decide) (by decide) 0x4000 rfl 0 300 (List.replicate 300 0xA5) (by decide)
  have hk2 : (k : Int) = 256 := by rw [hk]; decide
  rw [hk2] at hrun
  exact ⟨n0 + n1 + n2 + n3 + n4, w1, hrun⟩

/-- C6: after initialisation, for a valid partition of size `s` and
`addr ≤ s`, `spi_flash_erase_size` is 4096 and on a responsive chip
`spi_flash_erase` returns the error value exactly when the clipped size
`min(size, s - addr)` is below 4096, whatever the caller asked for; otherwise
it returns that clipped size. -/
theorem erase_granularity {σ : Type} (T : Transport σ) (hT : Responsive T)
    (w : World σ) (hw : AfterInit w) (p : Int) (h0 : 0 ≤ p) (h3 : p < 3) (s : Int)
    (hs : spi_flash_size w.spi_flash_partitions p = .ok s)
    (addr size : Nat) (ha : (addr : Int) ≤ s) :
    spi_flash_erase_size p = 4096 ∧
    ∃ N w1 r,
      (∀ fuel, N ≤ fuel → spi_flash_erase T fuel w p addr size = .ok (w1, r)) ∧
      (r = -1 ↔ min (size : Int) (s - (addr : Int)) < 4096) ∧
      (¬ (min (size : Int) (s - (addr : Int)) < 4096) →
        r = min (size : Int) (s - (addr : Int))) := by
  obtain ⟨part, hpart, hsz, hse, hend, _⟩ := afterInit_size w hw p h0 h3 s hs
  have ha2 : addr ≤ part.size := by omega
  have hc := clipSize_eq part addr size ha2 (by omega)
  have hge : ¬ (p ≥ SPI_FLASH_PARTITIONS_COUNT) := by
    simp only [SPI_FLASH_PARTITIONS_COUNT]; omega
  refine ⟨by simp only [spi_flash_erase_size, hge, if_false], ?_⟩
  by_cases hsmall : clipSize part addr size < 4096
  · refine ⟨0, w, -1, fun fuel _ => ?_, ?_, ?_⟩
    · exact erase_too_small T fuel w p part h3 hpart addr size ha2 hsmall
    · constructor
      · intro _; omega
      · intro _; rfl
    · intro h; omega
  · obtain ⟨n0, n1, n2, n3, n4, w1, _, _, _, _, _, _, _, _, herase⟩ :=
      erase_ok T hT w p part h3 hpart addr size ha2 (by omega)
    have e1 : toInt32 (clipSize part addr size) = (clipSize part addr size : Int) :=
      toInt32_of_lt _ (by omega)
    refine ⟨n0 + n1 + n2 + n3 + n4, w1, _, herase, ?_, ?_⟩
    · rw [e1]
      constructor
      · intro h; omega
      · intro h; omega
    · intro _
      rw [e1]
      omega

/-- C6 on the simulated chip: `erase(0, 0, 4096)` returns 4096, while
`erase(0, 0, 2048)` and `erase(0, 0x3800, 4096)` fail. -/
theorem erase_granularity_witness :
    ∃ N w1 w2 w3, ∀ fuel, N ≤ fuel →
      spi_flash_erase simTransfer fuel simReady 0 0 4096 = .ok (w1, 4096) ∧
      spi_flash_erase simTransfer fuel simReady 0 0 2048 = .ok (w2, -1) ∧
      spi_flash_erase simTransfer fuel simReady 0 0x3800 4096 = .ok (w3, -1) := by
  obtain ⟨_, N1, w1, r1, hrun1, _, hval1⟩ :=
    erase_granularity simTransfer sim_responsive simReady simReady_afterInit 0
      (by decide) (by decide) 0x4000 rfl 0 4096 (by decide)
  obtain ⟨_, N2, w2, r2, hrun2, hiff2, _⟩ :=
    erase_granularity simTransfer sim_responsive simReady simReady_afterInit 0
      (by decide) (by decide) 0x4000 rfl 0 2048 (by decide)
  obtain ⟨_, N3, w3, r3, hrun3, hiff3, _⟩ :=
    erase_granularity simTransfer sim_responsive simReady simReady_afterInit 0
      (by decide) (by decide) 0x4000 rfl 0x3800 4096 (by decide)
  have e1 : r1 = 4096 := by rw [hval1 (by decide)]; decide
  have e2 : r2 = -1 := hiff2.mpr (by decide)
  have e3 : r3 = -1 := hiff3.mpr (by decide)
  subst e1 e2 e3
  exact ⟨N1 + N2 + N3, w1, w2, w3, fun fuel hf =>
    ⟨hrun1 fuel (by omega), hrun2 fuel (by omega), hrun3 fuel (by omega)⟩⟩

/-- C7 as stated fails: on the initialised simulated chip, partition 0 has
size 0x4000 and `erase(0, 0x4000, 4096)` returns the error value. -/
theorem erase_at_partition_end_example :
    spi_flash_size simReady.spi_flash_partitions 0 = .ok 0x4000 ∧
    spi_flash_erase simTransfer 8 simReady 0 0x4000 4096 = .ok (simReady, -1) :=
  ⟨rfl, rfl⟩

/-- C7 amended: after initialisation, for a valid partition of size `s`,
`spi_flash_erase` with `addr = s` passes the bounds check but its clipped size
is 0, below the 4096-byte minimum, so for every requested size and every fuel
it returns `-1` and leaves the world, bus log included, untouched. -/
theorem erase_at_partition_end_rejected {σ : Type} (T : Transport σ) (w : World σ)
    (hw : AfterInit w) (p : Int) (h0 : 0 ≤ p) (h3 : p < 3) (s : Int)
    (hs : spi_flash_size w.spi_flash_partitions p = .ok s)
    (addr size : Nat) (ha : (addr : Int) = s) (fuel : Nat) :
    spi_flash_erase T fuel w p addr size = .ok (w, -1) ∧
    min (size : Int) (s - (addr : Int)) = 0 := by
  obtain ⟨part, hpart, hsz, hse, hend, _⟩ := afterInit_size w hw p h0 h3 s hs
  have ha2 : addr ≤ part.size := by omega
  have hc := clipSize_eq part addr size ha2 (by omega)
  exact ⟨erase_too_small T fuel w p part h3 hpart addr size ha2 (by omega), by omega⟩

/-- C7 amended, on the simulated chip at the end of partition 1. -/
theorem erase_at_partition_end_rejected_witness :
    AfterInit simReady ∧
    spi_flash_size simReady.spi_flash_partitions 1 = .ok 0xFC000 ∧
    spi_flash_erase simTransfer 4 simReady 1 0xFC000 8192 = .ok (simReady, -1) ∧
    min ((8192 : Nat) : Int) (0xFC000 - ((0xFC000 : Nat) : Int)) = 0 :=
  ⟨simReady_afterInit, rfl,
    erase_at_partition_end_rejected simTransfer simReady simReady_afterInit 1
      (by decide) (by decide) 0xFC000 rfl 0xFC000 8192 rfl 4⟩

/-- C8: against the simulated chip, after initialisation, for a valid partition
of size `s`, an offset `a` and bytes `b` with `len(b) ≤ 256` and
`a + len(b) ≤ s`, and any positive fuel, `write(p, a, len(b), b)` returns
`len(b)` and the following `read(p, a, len(b), dst)` returns `len(b)` and
leaves the first `len(b)` bytes of `dst` equal to `b` (the rest of `dst`
is untouched). -/
theorem write_read_roundtrip (w : World SimChip) (hw : AfterInit w) (p : Int)
    (h0 : 0 ≤ p) (h3 : p < 3) (s : Int)
    (hs : spi_flash_size w.spi_flash_partitions p = .ok s)
    (a : Nat) (b dst : List Nat) (hb : b.length ≤ 256)
    (hfit : ((a + b.length : Nat) : Int) ≤ s) (fuel : Nat) (hf : 0 < fuel) :
    ∃ w1 w2 d,
      spi_flash_write simTransfer fuel w p a b.length b = .ok (w1, (b.length : Int)) ∧
      spi_flash_read simTransfer fuel w1 p a b.length dst = .ok (w2, (b.length : Int), d) ∧
      d.take b.length = b ∧ d.drop b.length = dst.drop b.length := by
  obtain ⟨part, hpart, hsz, hse, hend, _⟩ := afterInit_size w hw p h0 h3 s hs
  obtain ⟨f, rfl⟩ : ∃ f, fuel = f + 1 := ⟨fuel - 1, by omega⟩
  have ha : a ≤ part.size := by omega
  have hc : clipSize part a b.length = b.length := by
    rw [clipSize_eq part a b.length ha (by omega)]; omega
  have hpc : pageClip (clipSize part a b.length) = b.length := by
    rw [hc, pageClip_eq]; omega
  have hti : toInt32 b.length = (b.length : Int) := toInt32_of_lt _ (by omega)
  have hA : add32 a part.start % 2^24 = a + part.start := by
    simp only [add32]; omega
  obtain ⟨w1, hw1, _, htbl1, hmem⟩ := sim_write w p part h3 hpart a b.length b ha f
  have hpart1 : partitionAt w1.spi_flash_partitions p = .ok part := by rw [htbl1]; exact hpart
  obtain ⟨w2, rx, hrd, hrx⟩ := sim_read w1 p part h3 hpart1 a b.length dst ha f
  rw [hpc, hti] at hw1
  rw [hc, hti] at hrd
  rw [hpc, hA, payloadOf_eq_take b b.length (le_refl _), List.take_length] at hmem
  rw [hc, hA, hmem] at hrx
  have hrxb : rx = b := by
    rw [hrx]
    apply List.ext_getElem
    · simp
    · intro i h1 h2
      have hlt : a + part.start + i < 2^24 := by omega
      simp only [List.getElem_map, List.getElem_range, Nat.mod_eq_of_lt hlt]
      exact program_at b w.chip.mem (a + part.start) i h2 (by omega)
  subst hrxb
  exact ⟨w1, w2, _, hw1, hrd, List.take_left _ _, List.drop_left _ _⟩

/-- C8 at partition 1, offset 5, three bytes, a four-byte destination. -/
theorem write_read_roundtrip_witness :
    AfterInit simReady ∧
    spi_flash_size simReady.spi_flash_partitions 1 = .ok 0xFC000 ∧
    ∃ w1 w2 d,
      spi_flash_write simTransfer 1 simReady 1 5 [7, 8, 9].length [7, 8, 9] =
        .ok (w1, (([7, 8, 9] : List Nat).length : Int)) ∧
      spi_flash_read simTransfer 1 w1 1 5 [7, 8, 9].length [0, 0, 0, 0] =
        .ok (w2, (([7, 8, 9] : List Nat).length : Int), d) ∧
      d.take [7, 8, 9].length = [7, 8, 9] ∧
      d.drop [7, 8, 9].length = [0, 0, 0, 0].drop [7, 8, 9].length :=
  ⟨simReady_afterInit, rfl,
    write_read_roundtrip simReady simReady_afterInit 1 (by decide) (by decide) 0xFC000 rfl 5
      [7, 8, 9] [0, 0, 0, 0] (by decide) (by decide) 1 (by decide)⟩

/-- C9: from every driver state, on a chip that eventually reports not-busy,
`spi_flash_suspend` ends Sleeping; the following `spi_flash_resume` ends
Active and sends one `0xAB` frame (followed only by status reads); a further
`spi_flash_resume` returns the same world, so it sends nothing and changes
nothing. -/
theorem suspend_resume_cycle {σ : Type} (T : Transport σ) (hT : EventuallyReady T)
    (w : World σ) :
    ∃ N n w1 w2, 0 < n ∧
      (∀ fuel, N ≤ fuel →
        spi_flash_suspend T fuel w = .ok w1 ∧ spi_flash_resume T fuel w1 = .ok w2) ∧
      w1.powerState = .Sleeping ∧ w2.powerState = .Active ∧
      w2.log = w1.log ++ cmdFrame 0xAB :: List.replicate n statusFrame ∧
      (w2.log.drop w1.log.length).count (cmdFrame 0xAB) = 1 ∧
      ∀ fuel, spi_flash_resume T fuel w2 = .ok w2 := by
  obtain ⟨m, w1, _, _, _, hsl1, _, _, hsus⟩ := suspend_total T hT w
  obtain ⟨n, w2, hn, hsl2, _, hlog2, hres⟩ := resume_total T hT w1
  have hne : ¬ (w1.spi_flash_sleeping = 0) := by rw [hsl1]; decide
  have hwake : wakeFrames w1 n = cmdFrame 0xAB :: List.replicate n statusFrame := by
    simp only [wakeFrames, hne, if_false]
  have hfr : ¬ (statusFrame = cmdFrame 0xAB) := by decide
  refine ⟨m + n, n, w1, w2, hn,
    fun fuel hf => ⟨hsus fuel (by omega), hres fuel (by omega)⟩, ?_, ?_, ?_, ?_, ?_⟩
  · simp only [World.powerState, hne, if_false]
  · simp only [World.powerState, hsl2, if_true]
  · rw [hlog2, hwake]
  · rw [hlog2, hwake, List.drop_left, List.count_cons_self, List.count_replicate]
    simp [hfr]
  · intro fuel
    simp only [spi_flash_resume, hsl2, if_true, except_pure]

/-- C9 on the simulated chip, starting from the initialised world. -/
theorem suspend_resume_cycle_witness :
    EventuallyReady simTransfer ∧
    ∃ N n w1 w2, 0 < n ∧
      (∀ fuel, N ≤ fuel →
        spi_flash_suspend simTransfer fuel simReady = .ok w1 ∧
        spi_flash_resume simTransfer fuel w1 = .ok w2) ∧
      w1.powerState = .Sleeping ∧ w2.powerState = .Active ∧
      w2.log = w1.log ++ cmdFrame 0xAB :: List.replicate n statusFrame ∧
      (w2.log.drop w1.log.length).count (cmdFrame 0xAB) = 1 ∧
      ∀ fuel, spi_flash_resume simTransfer fuel w2 = .ok w2 :=
  ⟨sim_responsive.1, suspend_resume_cycle simTransfer sim_responsive.1 simReady⟩

/-- C10: from either power state, on a chip that eventually reports not-busy,
`spi_flash_suspend` polls the status up to the first not-busy reply, then
sends one `0xB9` frame and ends Sleeping; a second suspend does the same again,
leaving the driver state as after the first while `0xB9` has gone out twice. -/
theorem suspend_twice {σ : Type} (T : Transport σ) (hT : EventuallyReady T) (w : World σ) :
    ∃ n1 n2 w1 w2, 0 < n1 ∧ 0 < n2 ∧
      (∀ fuel, n1 + n2 ≤ fuel →
        spi_flash_suspend T fuel w = .ok w1 ∧ spi_flash_suspend T fuel w1 = .ok w2) ∧
      ReadyAt T w.chip (n1 - 1) ∧ (∀ i, i + 1 < n1 → ¬ ReadyAt T w.chip i) ∧
      w1.log = w.log ++ List.replicate n1 statusFrame ++ [cmdFrame 0xB9] ∧
      w2.log = w1.log ++ List.replicate n2 statusFrame ++ [cmdFrame 0xB9] ∧
      w1.powerState = .Sleeping ∧ w2.powerState = .Sleeping ∧
      w2.spi_flash_sleeping = w1.spi_flash_sleeping ∧
      w2.spi_flash_partitions = w1.spi_flash_partitions ∧
      w1.spi_flash_partitions = w.spi_flash_partitions ∧
      (w1.log.drop w.log.length).count (cmdFrame 0xB9) = 1 ∧
      (w2.log.drop w.log.length).count (cmdFrame 0xB9) = 2 := by
  obtain ⟨n1, w1, hn1, hready, hfirst, hsl1, htbl1, hlog1, hsus1⟩ := suspend_total T hT w
  obtain ⟨n2, w2, hn2, _, _, hsl2, htbl2, hlog2, hsus2⟩ := suspend_total T hT w1
  have hfr : ¬ (statusFrame = cmdFrame 0xB9) := by decide
  have hne1 : ¬ (w1.spi_flash_sleeping = 0) := by rw [hsl1]; decide
  have hne2 : ¬ (w2.spi_flash_sleeping = 0) := by rw [hsl2]; decide
  refine ⟨n1, n2, w1, w2, hn1, hn2,
    fun fuel hf => ⟨hsus1 fuel (by omega), hsus2 fuel (by omega)⟩, hready, hfirst, hlog1,
    hlog2, ?_, ?_, by rw [hsl1, hsl2], htbl2, htbl1, ?_, ?_⟩
  · simp only [World.powerState, hne1, if_false]
  · simp only [World.powerState, hne2, if_false]
  · rw [hlog1, List.append_assoc, List.drop_left, List.count_append, List.count_replicate]
    simp [hfr]
  · rw [hlog2, hlog1]
    simp only [List.append_assoc]
    rw [List.drop_left]
    simp only [List.count_append, List.count_replicate]
    simp [hfr]

/-- C10 on the simulated chip, starting from the initialised world. -/
theorem suspend_twice_witness :
    EventuallyReady simTransfer ∧
    ∃ n1 n2 w1 w2, 0 < n1 ∧ 0 < n2 ∧
      (∀ fuel, n1 + n2 ≤ fuel →
        spi_flash_suspend simTransfer fuel simReady = .ok w1 ∧
        spi_flash_suspend simTransfer fuel w1 = .ok w2) ∧
      w1.powerState = .Sleeping ∧ w2.powerState = .Sleeping ∧
      (w2.log.drop simReady.log.length).count (cmdFrame 0xB9) = 2 := by
  obtain ⟨n1, n2, w1, w2, h1, h2, hrun, _, _, _, _, hs1, hs2, _, _, _, _, hc⟩ :=
    suspend_twice simTransfer sim_responsive.1 simReady
  exact ⟨sim_responsive.1, n1, n2, w1, w2, h1, h2, hrun, hs1, hs2, hc⟩

/-- C11: after initialisation and on a responsive chip, for a valid partition of
size `s` and `addr ≤ s`, `spi_flash_read` and `spi_flash_write` (and
`spi_flash_erase` when the clipped size reaches 4096) return a non-error value
and leave the driver Active whatever the state before; the frame `0xAB` is
among the frames of the call exactly when the driver was Sleeping, and then it
is the first frame of the call. -/
theorem data_ops_auto_wake {σ : Type} (T : Transport σ) (hT : Responsive T) (w : World σ)
    (hw : AfterInit w) (p : Int) (h0 : 0 ≤ p) (h3 : p < 3) (s : Int)
    (hs : spi_flash_size w.spi_flash_partitions p = .ok s)
    (addr size : Nat) (dst src : List Nat) (ha : (addr : Int) ≤ s) :
    (∃ N w1 r d frames,
      (∀ fuel, N ≤ fuel → spi_flash_read T fuel w p addr size dst = .ok (w1, r, d)) ∧
      r ≠ -1 ∧ w1.powerState = .Active ∧ w1.log = w.log ++ frames ∧
      (cmdFrame 0xAB ∈ frames ↔ w.powerState = .Sleeping) ∧
      (w.powerState = .Sleeping → frames.head? = some (cmdFrame 0xAB))) ∧
    (∃ N w1 r frames,
      (∀ fuel, N ≤ fuel → spi_flash_write T fuel w p addr size src = .ok (w1, r)) ∧
      r ≠ -1 ∧ w1.powerState = .Active ∧ w1.log = w.log ++ frames ∧
      (cmdFrame 0xAB ∈ frames ↔ w.powerState = .Sleeping) ∧
      (w.powerState = .Sleeping → frames.head? = some (cmdFrame 0xAB))) ∧
    (4096 ≤ min (size : Int) (s - (addr : Int)) →
      ∃ N w1 r frames,
        (∀ fuel, N ≤ fuel → spi_flash_erase T fuel w p addr size = .ok (w1, r)) ∧
        r ≠ -1 ∧ w1.powerState = .Active ∧ w1.log = w.log ++ frames ∧
        (cmdFrame 0xAB ∈ frames ↔ w.powerState = .Sleeping) ∧
        (w.powerState = .Sleeping → frames.head? = some (cmdFrame 0xAB))) := by
  obtain ⟨part, hpart, hsz, hse, hend, _⟩ := afterInit_size w hw p h0 h3 s hs
  have ha2 : addr ≤ part.size := by omega
  have hc := clipSize_eq part addr size ha2 (by omega)
  have hpc := pageClip_eq (clipSize part addr size)
  have e1 : toInt32 (clipSize part addr size) = (clipSize part addr size : Int) :=
    toInt32_of_lt _ (by omega)
  have e2 : toInt32 (pageClip (clipSize part addr size)) =
      (pageClip (clipSize part addr size) : Int) := toInt32_of_lt _ (by omega)
  have hact : ∀ w1 : World σ, w1.spi_flash_sleeping = 0 → w1.powerState = .Active := by
    intro w1 h
    simp only [World.powerState, h, if_true]
  refine ⟨?_, ?_, ?_⟩
  · obtain ⟨n0, n1, w1, rx, _, _, _, hsl, _, hlog, hrun⟩ :=
      read_ok T hT.1 w p part h3 hpart addr size dst ha2
    obtain ⟨hiff, hhead, _⟩ := wake_first w n0 _
      (wake_not_in_read n1 (add32 addr part.start) (clipSize part addr size))
    refine ⟨n0 + n1, w1, _, _, _, hrun, ?_, hact w1 hsl, ?_, hiff, hhead⟩
    · rw [e1]; omega
    · rw [hlog]; simp only [List.append_assoc]
  · obtain ⟨n0, n1, n2, n3, n4, w1, _, _, _, _, _, hsl, _, hlog, hrun⟩ :=
      write_ok T hT w p part h3 hpart addr size src ha2
    obtain ⟨hiff, hhead, _⟩ := wake_first w n0 _
      (wake_not_in_write n1 n2 n3 n4 (add32 addr part.start)
        (payloadOf src (pageClip (clipSize part addr size))))
    refine ⟨n0 + n1 + n2 + n3 + n4, w1, _, _, hrun, ?_, hact w1 hsl, ?_, hiff, hhead⟩
    · rw [e2]; omega
    · rw [hlog]; simp only [List.append_assoc]
  · intro hmin
    obtain ⟨n0, n1, n2, n3, n4, w1, _, _, _, _, _, hsl, _, hlog, hrun⟩ :=
      erase_ok T hT w p part h3 hpart addr size ha2 (by omega)
    obtain ⟨hiff, hhead, _⟩ := wake_first w n0 _
      (wake_not_in_erase n1 n2 n3 n4 (add32 addr part.start))
    refine ⟨n0 + n1 + n2 + n3 + n4, w1, _, _, hrun, ?_, hact w1 hsl, ?_, hiff, hhead⟩
    · rw [e1]; omega
    · rw [hlog]; simp only [List.append_assoc]

/-- C11 on the suspended simulated chip: a read wakes it first. -/
theorem data_ops_auto_wake_witness :
    simAsleep.powerState = .Sleeping ∧
    ∃ N w1 r d frames,
      (∀ fuel, N ≤ fuel →
        spi_flash_read simTransfer fuel simAsleep 0 0 16 [] = .ok (w1, r, d)) ∧
      r ≠ -1 ∧ w1.powerState = .Active ∧ w1.log = simAsleep.log ++ frames ∧
      cmdFrame 0xAB ∈ frames ∧ frames.head? = some (cmdFrame 0xAB) := by
  obtain ⟨⟨N, w1, r, d, frames, hrun, hr, hact, hlog, hiff, hhead⟩, _, _⟩ :=
    data_ops_auto_wake simTransfer sim_responsive simAsleep simAsleep_afterInit 0
      (by decide) (by decide) 0x4000 rfl 0 16 [] [] (by decide)
  exact ⟨rfl, N, w1, r, d, frames, hrun, hr, hact, hlog, hiff.mpr rfl, hhead rfl⟩

/-- C12: after initialisation, for a valid partition and `addr ≤ size(p)`, the
absolute address `start(p) + addr` is below `2^24`, and the three bytes that
follow the opcode in the read-data (`0x0B`), page-program (`0x02`) and
sector-erase (`0x20`) frames are its base-256 digits, most significant first;
every other frame of the call is a one-byte command. -/
theorem address_bytes_lossless {σ : Type} (T : Transport σ) (hT : Responsive T)
    (w : World σ) (hw : AfterInit w) (p : Int) (h0 : 0 ≤ p) (h3 : p < 3)
    (part : Partition) (hpart : partitionAt w.spi_flash_partitions p = .ok part)
    (addr size : Nat) (dst src : List Nat) (ha : addr ≤ part.size) :
    part.start + addr < 2^24 ∧
    ∃ b1 b2 b3, b1 < 256 ∧ b2 < 256 ∧ b3 < 256 ∧
      b1 * 65536 + b2 * 256 + b3 = part.start + addr ∧
      (∃ N w1 r d pre n,
        (∀ fuel, N ≤ fuel → spi_flash_read T fuel w p addr size dst = .ok (w1, r, d)) ∧
        w1.log = w.log ++ pre ++ [{ tx := [0x0B, b1, b2, b3, 0xFF], rxlen := n }] ∧
        ∀ f ∈ pre, f.tx.length = 1) ∧
      (∃ N w1 r pre post payload,
        (∀ fuel, N ≤ fuel → spi_flash_write T fuel w p addr size src = .ok (w1, r)) ∧
        w1.log = w.log ++ pre ++ [{ tx := 0x02 :: b1 :: b2 :: b3 :: payload, rxlen := 0 }]
          ++ post ∧
        ∀ f ∈ pre ++ post, f.tx.length = 1) ∧
      (4096 ≤ min size (part.size - addr) →
        ∃ N w1 r pre post,
          (∀ fuel, N ≤ fuel → spi_flash_erase T fuel w p addr size = .ok (w1, r)) ∧
          w1.log = w.log ++ pre ++ [{ tx := [0x20, b1, b2, b3], rxlen := 0 }] ++ post ∧
          ∀ f ∈ pre ++ post, f.tx.length = 1) := by
  obtain ⟨hse, hend, _, _, _⟩ := afterInit_layout w hw p h0 h3 part hpart
  have hA : add32 addr part.start = part.start + addr := by
    simp only [add32]; omega
  have hc := clipSize_eq part addr size ha (by omega)
  have hbytes := addrBytes_eq (part.start + addr)
  refine ⟨by omega, (part.start + addr) / 65536 % 256, (part.start + addr) / 256 % 256,
    (part.start + addr) % 256, by omega, by omega, by omega, by omega, ?_, ?_, ?_⟩
  · obtain ⟨n0, n1, w1, rx, _, _, _, _, _, hlog, hrun⟩ :=
      read_ok T hT.1 w p part h3 hpart addr size dst ha
    refine ⟨n0 + n1, w1, _, _, wakeFrames w n0 ++ List.replicate n1 statusFrame,
      clipSize part addr size, hrun, ?_, ?_⟩
    · rw [hlog, hA]
      simp only [readFrame, hbytes, List.append_assoc, List.cons_append, List.nil_append]
    · rw [List.forall_mem_append]
      exact ⟨short_wake w n0, short_polls n1⟩
  · obtain ⟨n0, n1, n2, n3, n4, w1, _, _, _, _, _, _, _, hlog, hrun⟩ :=
      write_ok T hT w p part h3 hpart addr size src ha
    refine ⟨n0 + n1 + n2 + n3 + n4, w1, _,
      wakeFrames w n0 ++ List.replicate n1 statusFrame ++ [cmdFrame 0x06] ++
        List.replicate n2 statusFrame,
      List.replicate n3 statusFrame ++ [cmdFrame 0x04] ++ List.replicate n4 statusFrame,
      payloadOf src (pageClip (clipSize part addr size)), hrun, ?_, ?_⟩
    · rw [hlog, hA]
      simp only [programFrame, hbytes, List.append_assoc, List.cons_append, List.nil_append]
    · simp only [List.forall_mem_append]
      exact ⟨⟨⟨⟨short_wake w n0, short_polls n1⟩, short_cmd _⟩, short_polls n2⟩,
        ⟨⟨short_polls n3, short_cmd _⟩, short_polls n4⟩⟩
  · intro hmin
    obtain ⟨n0, n1, n2, n3, n4, w1, _, _, _, _, _, _, _, hlog, hrun⟩ :=
      erase_ok T hT w p part h3 hpart addr size ha (by omega)
    refine ⟨n0 + n1 + n2 + n3 + n4, w1, _,
      wakeFrames w n0 ++ List.replicate n1 statusFrame ++ [cmdFrame 0x06] ++
        List.replicate n2 statusFrame,
      List.replicate n3 statusFrame ++ [cmdFrame 0x04] ++ List.replicate n4 statusFrame,
      hrun, ?_, ?_⟩
    · rw [hlog, hA]
      simp only [eraseFrame, hbytes, List.append_assoc, List.cons_append, List.nil_append]
    · simp only [List.forall_mem_append]
      exact ⟨⟨⟨⟨short_wake w n0, short_polls n1⟩, short_cmd _⟩, short_polls n2⟩,
        ⟨⟨short_polls n3, short_cmd _⟩, short_polls n4⟩⟩

/-- C12 on the simulated chip: offset 0x123456 of partition 2 (start 0x100000)
goes out as the bytes 0x22, 0x34, 0x56. -/
theorem address_bytes_lossless_witness :
    ∃ N w1 r d pre n,
      (∀ fuel, N ≤ fuel →
        spi_flash_read simTransfer fuel simReady 2 0x123456 4 [] = .ok (w1, r, d)) ∧
      w1.log = simReady.log ++ pre ++ [{ tx := [0x0B, 0x22, 0x34, 0x56, 0xFF], rxlen := n }] := by
  obtain ⟨_, b1, b2, b3, h1, h2, h3, hsum, ⟨N, w1, r, d, pre, n, hrun, hlog, _⟩, _, _⟩ :=
    address_bytes_lossless simTransfer sim_responsive simReady simReady_afterInit 2
      (by decide) (by decide) { start := 0x100000, end_ := 0x800000, size := 0x700000 } rfl
      0x123456 4 [] [] (by decide)
  have e1 : b1 = 0x22 := by simp only at hsum; omega
  have e2 : b2 = 0x34 := by simp only at hsum; omega
  have e3 : b3 = 0x56 := by simp only at hsum; omega
  subst e1 e2 e3
  exact ⟨N, w1, r, d, pre, n, hrun, hlog⟩

/-- C13: after initialisation and on a responsive chip, a write to a valid
partition of size `s` at `addr ≤ s` puts on the bus, in order: the wake frame
with its status reads only if the driver was Sleeping; status reads;
write-enable `0x06`; status reads; one page-program frame
`[0x02, a2, a1, a0] ++ payload` of length `4 + n ≤ 260`, where `n ≤ 256` is
the value returned; status reads; write-disable `0x04`; status reads.  Each
command frame occurs exactly once. -/
theorem write_frame_sequence {σ : Type} (T : Transport σ) (hT : Responsive T)
    (w : World σ) (hw : AfterInit w) (p : Int) (h0 : 0 ≤ p) (h3 : p < 3) (s : Int)
    (hs : spi_flash_size w.spi_flash_partitions p = .ok s)
    (addr size : Nat) (src : List Nat) (ha : (addr : Int) ≤ s) :
    ∃ n0 n1 n2 n3 n4 w1 a payload frames, 0 < n0 ∧ 0 < n1 ∧ 0 < n2 ∧ 0 < n3 ∧ 0 < n4 ∧
      (∀ fuel, n0 + n1 + n2 + n3 + n4 ≤ fuel →
        spi_flash_write T fuel w p addr size src = .ok (w1, (payload.length : Int))) ∧
      w1.log = w.log ++ frames ∧
      frames = wakeFrames w n0 ++ List.replicate n1 statusFrame ++ [cmdFrame 0x06] ++
        List.replicate n2 statusFrame ++ [programFrame a payload] ++
        List.replicate n3 statusFrame ++ [cmdFrame 0x04] ++ List.replicate n4 statusFrame ∧
      (programFrame a payload).tx = 0x02 :: addrBytes a ++ payload ∧
      (payload.length : Int) = min (min (size : Int) (s - (addr : Int))) 256 ∧
      payload.length ≤ 256 ∧
      (programFrame a payload).tx.length = 4 + payload.length ∧
      (programFrame a payload).tx.length ≤ 260 ∧
      frames.count (cmdFrame 0x06) = 1 ∧ frames.count (programFrame a payload) = 1 ∧
      frames.count (cmdFrame 0x04) = 1 ∧
      frames.count (cmdFrame 0xAB) = (if w.powerState = .Sleeping then 1 else 0) ∧
      frames.countP (fun f => decide (1 < f.tx.length)) = 1 := by
  obtain ⟨part, hpart, hsz, hse, hend, _⟩ := afterInit_size w hw p h0 h3 s hs
  have ha2 : addr ≤ part.size := by omega
  obtain ⟨n0, n1, n2, n3, n4, w1, hn0, hn1, hn2, hn3, hn4, _, _, hlog, hrun⟩ :=
    write_ok T hT w p part h3 hpart addr size src ha2
  have hc := clipSize_eq part addr size ha2 (by omega)
  have hpc := pageClip_eq (clipSize part addr size)
  have e2 : toInt32 (pageClip (clipSize part addr size)) =
      (pageClip (clipSize part addr size) : Int) := toInt32_of_lt _ (by omega)
  have hplen := payloadOf_length src (pageClip (clipSize part addr size))
  have hflen := programFrame_length (add32 addr part.start)
    (payloadOf src (pageClip (clipSize part addr size)))
  obtain ⟨c1, c2, c3, c4⟩ := sequence_counts w n0 n1 n2 n3 n4
    (programFrame (add32 addr part.start) (payloadOf src (pageClip (clipSize part addr size))))
    (programFrame_ne _ _ _ rfl) (programFrame_ne _ _ _ rfl) (programFrame_ne _ _ _ rfl)
    (programFrame_ne _ _ _ rfl) _ rfl
  refine ⟨n0, n1, n2, n3, n4, w1, add32 addr part.start,
    payloadOf src (pageClip (clipSize part addr size)), _, hn0, hn1, hn2, hn3, hn4, ?_, ?_,
    rfl, rfl, by omega, by omega, hflen, by omega, c1, c2, c3, c4, ?_⟩
  · intro fuel hf
    rw [hrun fuel hf, e2, hplen]
  · rw [hlog]; simp only [List.append_assoc]
  · have hbig : (1 < (programFrame (add32 addr part.start)
        (payloadOf src (pageClip (clipSize part addr size)))).tx.length) := by omega
    by_cases hsl : w.spi_flash_sleeping = 0
    · simp [wakeFrames, hsl, List.countP_append, List.countP_cons, List.countP_replicate,
        statusFrame, cmdFrame, hbig]
    · simp [wakeFrames, hsl, List.countP_append, List.countP_cons, List.countP_replicate,
        statusFrame, cmdFrame, hbig]

/-- C13 on the suspended simulated chip: `write(0, 0, 300, data)` wakes the
chip and sends one page-program frame with 256 payload bytes. -/
theorem write_frame_sequence_witness :
    ∃ N n0 n1 n2 n3 n4 w1 a payload,
      (∀ fuel, N ≤ fuel →
        spi_flash_write simTransfer fuel simAsleep 0 0 300 (List.replicate 300 0xA5) =
          .ok (w1, 256)) ∧
      payload.length = 256 ∧
      w1.log = simAsleep.log ++ (cmdFrame 0xAB :: List.replicate n0 statusFrame ++
        List.replicate n1 statusFrame ++ [cmdFrame 0x06] ++
        List.replicate n2 statusFrame ++ [programFrame a payload] ++
        List.replicate n3 statusFrame ++ [cmdFrame 0x04] ++ List.replicate n4 statusFrame) := by
  obtain ⟨n0, n1, n2, n3, n4, w1, a, payload, frames, _, _, _, _, _, hrun, hlog, hfr, _, hval,
      _⟩ :=
    write_frame_sequence simTransfer sim_responsive simAsleep simAsleep_afterInit 0
      (by decide) (by decide) 0x4000 rfl 0 300 (List.replicate 300 0xA5) (by decide)
  have hk : (payload.length : Int) = 256 := by rw [hval]; decide
  rw [hk] at hrun
  refine ⟨n0 + n1 + n2 + n3 + n4, n0, n1, n2, n3, n4, w1, a, payload, hrun, by omega, ?_⟩
  rw [hlog, hfr]
  rfl

/-- C14: after initialisation and on a responsive chip, an erase of a valid
partition of size `s` at `addr ≤ s` whose clipped size `min(size, s - addr)`
reaches 4096 returns that clipped size and puts on the bus, after the optional
wake-up: status reads; write-enable `0x06`; status reads; one sector-erase
frame `[0x20, a2, a1, a0]` of length 4; status reads; write-disable `0x04`;
status reads.  There is exactly one sector-erase frame whatever the size
returned. -/
theorem erase_frame_sequence {σ : Type} (T : Transport σ) (hT : Responsive T)
    (w : World σ) (hw : AfterInit w) (p : Int) (h0 : 0 ≤ p) (h3 : p < 3) (s : Int)
    (hs : spi_flash_size w.spi_flash_partitions p = .ok s)
    (addr size : Nat) (ha : (addr : Int) ≤ s)
    (hmin : 4096 ≤ min (size : Int) (s - (addr : Int))) :
    ∃ n0 n1 n2 n3 n4 w1 a frames, 0 < n0 ∧ 0 < n1 ∧ 0 < n2 ∧ 0 < n3 ∧ 0 < n4 ∧
      (∀ fuel, n0 + n1 + n2 + n3 + n4 ≤ fuel →
        spi_flash_erase T fuel w p addr size =
          .ok (w1, min (size : Int) (s - (addr : Int)))) ∧
      w1.log = w.log ++ frames ∧
      frames = wakeFrames w n0 ++ List.replicate n1 statusFrame ++ [cmdFrame 0x06] ++
        List.replicate n2 statusFrame ++ [eraseFrame a] ++
        List.replicate n3 statusFrame ++ [cmdFrame 0x04] ++ List.replicate n4 statusFrame ∧
      (eraseFrame a).tx = 0x20 :: addrBytes a ∧ (eraseFrame a).tx.length = 4 ∧
      frames.count (cmdFrame 0x06) = 1 ∧ frames.count (eraseFrame a) = 1 ∧
      frames.count (cmdFrame 0x04) = 1 ∧
      frames.count (cmdFrame 0xAB) = (if w.powerState = .Sleeping then 1 else 0) ∧
      frames.countP (fun f => decide (1 < f.tx.length)) = 1 := by
  obtain ⟨part, hpart, hsz, hse, hend, _⟩ := afterInit_size w hw p h0 h3 s hs
  have ha2 : addr ≤ part.size := by omega
  have hc := clipSize_eq part addr size ha2 (by omega)
  obtain ⟨n0, n1, n2, n3, n4, w1, hn0, hn1, hn2, hn3, hn4, _, _, hlog, hrun⟩ :=
    erase_ok T hT w p part h3 hpart addr size ha2 (by omega)
  have e1 : toInt32 (clipSize part addr size) = (clipSize part addr size : Int) :=
    toInt32_of_lt _ (by omega)
  have e2 : min (size : Int) (s - (addr : Int)) = (clipSize part addr size : Int) := by omega
  have hflen := eraseFrame_length (add32 addr part.start)
  obtain ⟨c1, c2, c3, c4⟩ := sequence_counts w n0 n1 n2 n3 n4
    (eraseFrame (add32 addr part.start))
    (eraseFrame_ne _ _ rfl) (eraseFrame_ne _ _ rfl) (eraseFrame_ne _ _ rfl)
    (eraseFrame_ne _ _ rfl) _ rfl
  refine ⟨n0, n1, n2, n3, n4, w1, add32 addr part.start, _, hn0, hn1, hn2, hn3, hn4, ?_, ?_,
    rfl, rfl, hflen, c1, c2, c3, c4, ?_⟩
  · intro fuel hf
    rw [hrun fuel hf, e1, e2]
  · rw [hlog]; simp only [List.append_assoc]
  · have hbig : (1 < (eraseFrame (add32 addr part.start)).tx.length) := by omega
    by_cases hsl : w.spi_flash_sleeping = 0
    · simp [wakeFrames, hsl, List.countP_append, List.countP_cons, List.countP_replicate,
        statusFrame, cmdFrame, hbig]
    · simp [wakeFrames, hsl, List.countP_append, List.countP_cons, List.countP_replicate,
        statusFrame, cmdFrame, hbig]

/-- C14 on the simulated chip: `erase(1, 0, 0x10000)` returns 65536 with a
single sector-erase frame. -/
theorem erase_frame_sequence_witness :
    ∃ N w1 a frames,
      (∀ fuel, N ≤ fuel →
        spi_flash_erase simTransfer fuel simReady 1 0 0x10000 = .ok (w1, 65536)) ∧
      w1.log = simReady.log ++ frames ∧ frames.count (eraseFrame a) = 1 ∧
      frames.countP (fun f => decide (1 < f.tx.length)) = 1 := by
  obtain ⟨n0, n1, n2, n3, n4, w1, a, frames, _, _, _, _, _, hrun, hlog, _, _, _, _, hc, _, _,
      hcp⟩ :=
    erase_frame_sequence simTransfer sim_responsive simReady simReady_afterInit 1
      (by decide) (by decide) 0xFC000 rfl 0 0x10000 (by decide) (by decide)
  have hk : min ((0x10000 : Nat) : Int) (0xFC000 - ((0 : Nat) : Int)) = 65536 := by decide
  rw [hk] at hrun
  exact ⟨n0 + n1 + n2 + n3 + n4, w1, a, frames, hrun, hlog, hc, hcp⟩

/-- C15: after initialisation, for a valid partition, every transport, every
fuel, every `addr` and every `size`: whenever `spi_flash_read` or
`spi_flash_write` returns, the frames it has put on the bus are known
exactly.  With `addr > size(p)` the result is `-1` and there are none.
Otherwise the result is the count `n = min(size, size(p) - addr)` (for write
also at most 256), and the only frame that addresses bytes of the chip is the
one read-data (resp. page-program) frame, which addresses
`[start(p) + addr, start(p) + addr + n)`, inside `[start(p), end(p))`.  So no
frame of the call addresses a byte outside the partition.  On a responsive
chip both calls do return. -/
theorem transfers_stay_in_partition {σ : Type} (T : Transport σ)
    (w : World σ) (hw : AfterInit w) (p : Int) (h0 : 0 ≤ p) (h3 : p < 3)
    (part : Partition) (hpart : partitionAt w.spi_flash_partitions p = .ok part)
    (addr size : Nat) (dst src : List Nat) :
    (∀ fuel w1 r d, spi_flash_read T fuel w p addr size dst = .ok (w1, r, d) →
      ∃ frames, w1.log = w.log ++ frames ∧
        (part.size < addr → r = -1 ∧ frames = []) ∧
        (addr ≤ part.size → ∃ n0 n1 n,
          n = min size (part.size - addr) ∧ r = (n : Int) ∧
          frames = wakeFrames w n0 ++ List.replicate n1 statusFrame ++
            [readFrame (part.start + addr) n] ∧
          addressedRange (readFrame (part.start + addr) n) = some (part.start + addr, n) ∧
          part.start ≤ part.start + addr ∧ part.start + addr + n ≤ part.end_) ∧
        ∀ f ∈ frames, ∀ a n, addressedRange f = some (a, n) →
          part.start ≤ a ∧ a + n ≤ part.end_) ∧
    (∀ fuel w1 r, spi_flash_write T fuel w p addr size src = .ok (w1, r) →
      ∃ frames, w1.log = w.log ++ frames ∧
        (part.size < addr → r = -1 ∧ frames = []) ∧
        (addr ≤ part.size → ∃ n0 n1 n2 n3 n4 n payload,
          n = min (min size (part.size - addr)) 256 ∧ r = (n : Int) ∧ payload.length = n ∧
          frames = wakeFrames w n0 ++ List.replicate n1 statusFrame ++ [cmdFrame 0x06] ++
            List.replicate n2 statusFrame ++ [programFrame (part.start + addr) payload] ++
            List.replicate n3 statusFrame ++ [cmdFrame 0x04] ++ List.replicate n4 statusFrame ∧
          addressedRange (programFrame (part.start + addr) payload) =
            some (part.start + addr, n) ∧
          part.start ≤ part.start + addr ∧ part.start + addr + n ≤ part.end_) ∧
        ∀ f ∈ frames, ∀ a n, addressedRange f = some (a, n) →
          part.start ≤ a ∧ a + n ≤ part.end_) ∧
    (Responsive T → ∃ N w1 r1 d1 w2 r2, ∀ fuel, N ≤ fuel →
      spi_flash_read T fuel w p addr size dst = .ok (w1, r1, d1) ∧
      spi_flash_write T fuel w p addr size src = .ok (w2, r2)) := by
  obtain ⟨hse, hend, _, _, _⟩ := afterInit_layout w hw p h0 h3 part hpart
  refine ⟨?_, ?_, ?_⟩
  · intro fuel w1 r d h
    by_cases hgt : part.size < addr
    · rw [read_out_of_bounds T fuel w p part h3 hpart addr size dst hgt] at h
      have e := Except.ok.inj h
      have ew : w = w1 := (Prod.mk.inj e).1
      have er : (-1 : Int) = r := (Prod.mk.inj (Prod.mk.inj e).2).1
      subst ew
      refine ⟨[], by simp, fun _ => ⟨er.symm, rfl⟩, fun hle => by omega, ?_⟩
      intro f hf
      simp at hf
    · have ha : addr ≤ part.size := by omega
      have hA : add32 addr part.start = part.start + addr := by
        simp only [add32]; omega
      have hmod : (part.start + addr) % 2^24 = part.start + addr :=
        Nat.mod_eq_of_lt (by omega)
      have hc := clipSize_eq part addr size ha (by omega)
      have hr := read_inv T fuel w p part h3 hpart addr size dst ha w1 r d h
      obtain ⟨n0, n1, _, _, hlog⟩ := read_inv_log T fuel w p part h3 hpart addr size dst ha
        w1 r d h
      rw [toInt32_of_lt _ (by omega)] at hr
      rw [hA] at hlog
      have hrange : addressedRange (readFrame (part.start + addr) (clipSize part addr size)) =
          some (part.start + addr, clipSize part addr size) := by
        rw [addressedRange_read, hmod]
      refine ⟨wakeFrames w n0 ++ List.replicate n1 statusFrame ++
        [readFrame (part.start + addr) (clipSize part addr size)], ?_, fun hlt => by omega,
        fun _ => ⟨n0, n1, clipSize part addr size, hc, hr, rfl, hrange, by omega, by omega⟩,
        ?_⟩
      · rw [hlog]; simp only [List.append_assoc]
      · intro f hf a n hx
        have hfm := read_frames_addressed w n0 n1 _ f hf (a, n) hx
        rw [hfm, hrange] at hx
        have e := Prod.mk.inj (Option.some.inj hx)
        omega
  · intro fuel w1 r h
    by_cases hgt : part.size < addr
    · rw [write_out_of_bounds T fuel w p part h3 hpart addr size src hgt] at h
      have e := Except.ok.inj h
      have ew : w = w1 := (Prod.mk.inj e).1
      have er : (-1 : Int) = r := (Prod.mk.inj e).2
      subst ew
      refine ⟨[], by simp, fun _ => ⟨er.symm, rfl⟩, fun hle => by omega, ?_⟩
      intro f hf
      simp at hf
    · have ha : addr ≤ part.size := by omega
      have hA : add32 addr part.start = part.start + addr := by
        simp only [add32]; omega
      have hmod : (part.start + addr) % 2^24 = part.start + addr :=
        Nat.mod_eq_of_lt (by omega)
      have hc := clipSize_eq part addr size ha (by omega)
      have hpc := pageClip_eq (clipSize part addr size)
      have hr := write_inv T fuel w p part h3 hpart addr size src ha w1 r h
      obtain ⟨n0, n1, n2, n3, n4, _, _, _, _, _, hlog⟩ :=
        write_inv_log T fuel w p part h3 hpart addr size src ha w1 r h
      rw [toInt32_of_lt _ (by omega)] at hr
      rw [hA] at hlog
      have hplen := payloadOf_length src (pageClip (clipSize part addr size))
      have hrange : addressedRange (programFrame (part.start + addr)
          (payloadOf src (pageClip (clipSize part addr size)))) =
          some (part.start + addr, pageClip (clipSize part addr size)) := by
        rw [addressedRange_program, hmod, hplen]
      refine ⟨wakeFrames w n0 ++ List.replicate n1 statusFrame ++ [cmdFrame 0x06] ++
        List.replicate n2 statusFrame ++ [programFrame (part.start + addr)
          (payloadOf src (pageClip (clipSize part addr size)))] ++
        List.replicate n3 statusFrame ++ [cmdFrame 0x04] ++ List.replicate n4 statusFrame,
        ?_, fun hlt => by omega,
        fun _ => ⟨n0, n1, n2, n3, n4, pageClip (clipSize part addr size),
          payloadOf src (pageClip (clipSize part addr size)), by omega, hr, hplen, rfl, hrange,
          by omega, by omega⟩, ?_⟩
      · rw [hlog]; simp only [List.append_assoc]
      · intro f hf a n hx
        have hfm := op_frames_addressed w n0 n1 n2 n3 n4 _ f hf (a, n) hx
        rw [hfm, hrange] at hx
        have e := Prod.mk.inj (Option.some.inj hx)
        omega
  · intro hT
    by_cases hgt : part.size < addr
    · exact ⟨0, w, -1, dst, w, -1, fun fuel _ =>
        ⟨read_out_of_bounds T fuel w p part h3 hpart addr size dst hgt,
          write_out_of_bounds T fuel w p part h3 hpart addr size src hgt⟩⟩
    · have ha : addr ≤ part.size := by omega
      obtain ⟨n0, n1, w1, rx, _, _, _, _, _, _, hread⟩ :=
        read_ok T hT.1 w p part h3 hpart addr size dst ha
      obtain ⟨m0, m1, m2, m3, m4, w2, _, _, _, _, _, _, _, _, hwrite⟩ :=
        write_ok T hT w p part h3 hpart addr size src ha
      exact ⟨n0 + n1 + (m0 + m1 + m2 + m3 + m4), w1, _, _, w2, _, fun fuel hf =>
        ⟨hread fuel (by omega), hwrite fuel (by omega)⟩⟩

/-- C15 on the simulated chip: a read and a write of 0x900000 bytes at offset
0x3FF0 of partition 0 return 16, and no frame of either call addresses a byte
at or beyond the partition end 0x4000. -/
theorem transfers_stay_in_partition_witness :
    ∃ N w1 d w2,
      (∀ fuel, N ≤ fuel →
        spi_flash_read simTransfer fuel simReady 0 0x3FF0 0x900000 [] = .ok (w1, 16, d) ∧
        spi_flash_write simTransfer fuel simReady 0 0x3FF0 0x900000 [] = .ok (w2, 16)) ∧
      readFrame 0x3FF0 16 ∈ w1.log.drop simReady.log.length ∧
      (∀ f ∈ w1.log.drop simReady.log.length, ∀ a n,
        addressedRange f = some (a, n) → a + n ≤ 0x4000) ∧
      (∀ f ∈ w2.log.drop simReady.log.length, ∀ a n,
        addressedRange f = some (a, n) → a + n ≤ 0x4000) := by
  obtain ⟨hread, hwrite, htotal⟩ :=
    transfers_stay_in_partition simTransfer simReady simReady_afterInit 0
      (by decide) (by decide) { start := 0, end_ := 0x4000, size := 0x4000 } rfl
      0x3FF0 0x900000 [] []
  obtain ⟨N, w1, r1, d1, w2, r2, hrun⟩ := htotal sim_responsive
  obtain ⟨fr1, hlog1, _, hin1, hall1⟩ := hread N w1 r1 d1 (hrun N (le_refl _)).1
  obtain ⟨fr2, hlog2, _, hin2, hall2⟩ := hwrite N w2 r2 (hrun N (le_refl _)).2
  obtain ⟨n0, n1, n, hn, hr1, hfr1, _⟩ := hin1 (by decide)
  obtain ⟨_, _, _, _, _, m, _, hm, hr2, _⟩ := hin2 (by decide)
  have en : n = 16 := by rw [hn]; decide
  have em : m = 16 := by rw [hm]; decide
  subst en em
  have e1 : r1 = 16 := by rw [hr1]; rfl
  have e2 : r2 = 16 := by rw [hr2]; rfl
  subst e1 e2
  refine ⟨N, w1, d1, w2, hrun, ?_, ?_, ?_⟩
  · rw [hlog1, List.drop_left, hfr1]
    simp
  · rw [hlog1, List.drop_left]
    intro f hf a n hx
    exact (hall1 f hf a n hx).2
  · rw [hlog2, List.drop_left]
    intro f hf a n hx
    exact (hall2 f hf a n hx).2

/-- C16: with the chip's status replies taken in order, if the first reply with
bit 0 clear has index `k` then `spi_flash_wait_busy` returns after exactly
`k + 1` status reads (the log gains `k + 1` frames `0x05`, the chip has
answered `k + 1` reads, the driver state is untouched) and fuel for fewer
reads does not suffice; likewise `spi_flash_wait_wel` with the first reply
that has bit 1 set.  The loop conditions depend on bit 0 (resp. bit 1) of the
reply only. -/
theorem wait_loops_poll_count {σ : Type} (T : Transport σ) (w : World σ) (k : Nat) :
    ((∀ i, i < k → ¬ ReadyAt T w.chip i) → ReadyAt T w.chip k →
      (∀ fuel, k < fuel → spi_flash_wait_busy T fuel w = .ok (polled T w (k + 1))) ∧
      (∀ fuel, fuel ≤ k → spi_flash_wait_busy T fuel w = .error .fuelExhausted)) ∧
    ((∀ i, i < k → ¬ WelAt T w.chip i) → WelAt T w.chip k →
      (∀ fuel, k < fuel → spi_flash_wait_wel T fuel w = .ok (polled T w (k + 1))) ∧
      (∀ fuel, fuel ≤ k → spi_flash_wait_wel T fuel w = .error .fuelExhausted)) ∧
    (polled T w (k + 1)).log = w.log ++ List.replicate (k + 1) statusFrame ∧
    (polled T w (k + 1)).chip = chipPolls T (k + 1) w.chip ∧
    (polled T w (k + 1)).spi_flash_sleeping = w.spi_flash_sleeping ∧
    (polled T w (k + 1)).spi_flash_partitions = w.spi_flash_partitions ∧
    (∀ s j, ReadyAt T s j ↔ chipStatus T (chipPolls T j s) % 2 = 0) ∧
    (∀ s j, WelAt T s j ↔ chipStatus T (chipPolls T j s) / 2 % 2 = 1) := by
  refine ⟨?_, ?_, rfl, rfl, rfl, rfl, ?_, ?_⟩
  · intro hmin hk
    obtain ⟨j, hjk, hj, _, hrun⟩ := wait_busy_first T k w hk
    have hjeq : j = k := by
      by_contra hne
      exact hmin j (by omega) hj
    subst hjeq
    exact ⟨hrun, fun fuel hf => wait_busy_short T fuel j w hmin hf⟩
  · intro hmin hk
    obtain ⟨j, hjk, hj, _, hrun⟩ := wait_wel_first T k w hk
    have hjeq : j = k := by
      by_contra hne
      exact hmin j (by omega) hj
    subst hjeq
    exact ⟨hrun, fun fuel hf => wait_wel_short T fuel j w hmin hf⟩
  · intro s j
    simp only [ReadyAt, Nat.and_one_is_mod]
  · intro s j
    simp only [WelAt, and_two_eq]
    omega

/-- C16 on the slow chip: the first ready reply and the first latch-set reply
both have index 2, so each loop makes exactly three status reads and fuel 2
is not enough. -/
theorem wait_loops_poll_count_witness :
    spi_flash_wait_busy slowTransfer 3 (World.initial 0) = .ok (polled slowTransfer (World.initial 0) 3) ∧
    spi_flash_wait_busy slowTransfer 2 (World.initial 0) = .error .fuelExhausted ∧
    spi_flash_wait_wel slowTransfer 3 (World.initial 0) = .ok (polled slowTransfer (World.initial 0) 3) ∧
    spi_flash_wait_wel slowTransfer 2 (World.initial 0) = .error .fuelExhausted ∧
    (polled slowTransfer (World.initial 0) 3).log = [statusFrame, statusFrame, statusFrame] ∧
    (polled slowTransfer (World.initial 0) 3).chip = 3 := by
  have h := wait_loops_poll_count slowTransfer (World.initial 0) 2
  have hb : ∀ i, i < 2 → ¬ ReadyAt slowTransfer (World.initial (0 : Nat)).chip i := by
    intro i hi
    interval_cases i <;> unfold ReadyAt <;> decide
  have hw : ∀ i, i < 2 → ¬ WelAt slowTransfer (World.initial (0 : Nat)).chip i := by
    intro i hi
    interval_cases i <;> unfold WelAt <;> decide
  obtain ⟨h1, h2⟩ := h.1 hb (by unfold ReadyAt; decide)
  obtain ⟨h3, h4⟩ := h.2.1 hw (by unfold WelAt; decide)
  exact ⟨h1 3 (by decide), h2 2 (by decide), h3 3 (by decide), h4 2 (by decide), rfl, rfl⟩

/-- C17 as stated fails: on the initialised simulated chip the driver is
Active, and `spi_flash_mass_erase` then sends no `0xAB` frame at all. -/
theorem mass_erase_no_wake_example :
    simReady.powerState = .Active ∧
    ∃ w1, spi_flash_mass_erase simTransfer 8 simReady = .ok w1 ∧
      w1.log = simReady.log ++ [statusFrame, cmdFrame 0x06, statusFrame, cmdFrame 0xC7,
        statusFrame, cmdFrame 0x04, statusFrame] ∧
      cmdFrame 0xAB ∉ w1.log.drop simReady.log.length :=
  ⟨rfl, _, rfl, rfl, by decide⟩

/-- C17 amended: in either power state and on a responsive chip,
`spi_flash_mass_erase` ends Active and sends, in order: the wake frame `0xAB`
with its status reads only if the driver was Sleeping (none when it was
already Active); status reads; write-enable `0x06`; status reads; exactly one
chip-erase frame `0xC7`; status reads; write-disable `0x04`; status reads. -/
theorem mass_erase_frame_sequence {σ : Type} (T : Transport σ) (hT : Responsive T)
    (w : World σ) :
    ∃ n0 n1 n2 n3 n4 w1 frames, 0 < n0 ∧ 0 < n1 ∧ 0 < n2 ∧ 0 < n3 ∧ 0 < n4 ∧
      (∀ fuel, n0 + n1 + n2 + n3 + n4 ≤ fuel → spi_flash_mass_erase T fuel w = .ok w1) ∧
      w1.powerState = .Active ∧
      w1.spi_flash_partitions = w.spi_flash_partitions ∧
      w1.log = w.log ++ frames ∧
      frames = wakeFrames w n0 ++ List.replicate n1 statusFrame ++ [cmdFrame 0x06] ++
        List.replicate n2 statusFrame ++ [cmdFrame 0xC7] ++
        List.replicate n3 statusFrame ++ [cmdFrame 0x04] ++ List.replicate n4 statusFrame ∧
      frames.count (cmdFrame 0x06) = 1 ∧ frames.count (cmdFrame 0xC7) = 1 ∧
      frames.count (cmdFrame 0x04) = 1 ∧
      frames.count (cmdFrame 0xAB) = (if w.powerState = .Sleeping then 1 else 0) ∧
      (w.powerState = .Sleeping → frames.head? = some (cmdFrame 0xAB)) := by
  obtain ⟨n0, n1, n2, n3, n4, w1, hn0, hn1, hn2, hn3, hn4, hsl, htbl, hlog, hrun⟩ :=
    mass_erase_ok T hT w
  obtain ⟨c1, c2, c3, c4⟩ := sequence_counts w n0 n1 n2 n3 n4 (cmdFrame 0xC7)
    (by decide) (by decide) (by decide) (by decide) _ rfl
  refine ⟨n0, n1, n2, n3, n4, w1, _, hn0, hn1, hn2, hn3, hn4, hrun, ?_, htbl, ?_, rfl,
    c1, c2, c3, c4, ?_⟩
  · simp only [World.powerState, hsl, if_true]
  · rw [hlog]; simp only [List.append_assoc]
  · intro hs
    have hne : ¬ (w.spi_flash_sleeping = 0) := by
      intro h0
      simp [World.powerState, h0] at hs
    simp [wakeFrames, hne]

/-- C17 amended, on the suspended simulated chip: the call wakes the chip,
sends one wake frame and one chip-erase frame, and ends Active. -/
theorem mass_erase_frame_sequence_witness :
    Responsive simTransfer ∧ simAsleep.powerState = .Sleeping ∧
    ∃ N w1 frames,
      (∀ fuel, N ≤ fuel → spi_flash_mass_erase simTransfer fuel simAsleep = .ok w1) ∧
      w1.powerState = .Active ∧ w1.log = simAsleep.log ++ frames ∧
      frames.count (cmdFrame 0xC7) = 1 ∧ frames.count (cmdFrame 0xAB) = 1 ∧
      frames.head? = some (cmdFrame 0xAB) := by
  obtain ⟨n0, n1, n2, n3, n4, w1, frames, _, _, _, _, _, hrun, hact, _, hlog, _, _, hc7, _,
      hab, hhead⟩ := mass_erase_frame_sequence simTransfer sim_responsive simAsleep
  exact ⟨sim_responsive, rfl, n0 + n1 + n2 + n3 + n4, w1, frames, hrun, hact, hlog, hc7, hab,
    hhead rfl⟩

/-- C19: after initialisation, for a valid partition, every transport, every
fuel, every `addr` and every `size`: whenever `spi_flash_erase` returns, the
frames it has put on the bus are known exactly.  With `addr > size(p)` or a
clipped size below 4096 the result is `-1` and there are none.  Otherwise the
result is the clipped size, there is one sector-erase frame, for
`start(p) + addr`, and the 4096-byte aligned sector it addresses lies inside
`[start(p), end(p))`, whether or not `addr` is a multiple of 4096.  No frame of
the call addresses a byte outside the partition.  Every partition starts and
ends on a multiple of 4096.  On a responsive chip the call does return. -/
theorem erase_sector_in_partition {σ : Type} (T : Transport σ)
    (w : World σ) (hw : AfterInit w) (p : Int) (h0 : 0 ≤ p) (h3 : p < 3)
    (part : Partition) (hpart : partitionAt w.spi_flash_partitions p = .ok part)
    (addr size : Nat) :
    part.start % 4096 = 0 ∧ part.end_ % 4096 = 0 ∧
    (∀ fuel w1 r, spi_flash_erase T fuel w p addr size = .ok (w1, r) →
      ∃ frames, w1.log = w.log ++ frames ∧
        ((part.size < addr ∨ min size (part.size - addr) < 4096) → r = -1 ∧ frames = []) ∧
        (addr ≤ part.size → 4096 ≤ min size (part.size - addr) →
          r = ((min size (part.size - addr) : Nat) : Int) ∧ r ≠ -1 ∧
          (∃ n0 n1 n2 n3 n4,
            frames = wakeFrames w n0 ++ List.replicate n1 statusFrame ++ [cmdFrame 0x06] ++
              List.replicate n2 statusFrame ++ [eraseFrame (part.start + addr)] ++
              List.replicate n3 statusFrame ++ [cmdFrame 0x04] ++
              List.replicate n4 statusFrame) ∧
          addressedRange (eraseFrame (part.start + addr)) =
            some (sectorStart (part.start + addr), 4096) ∧
          sectorStart (part.start + addr) % 4096 = 0 ∧
          sectorStart (part.start + addr) ≤ part.start + addr ∧
          part.start + addr < sectorStart (part.start + addr) + 4096 ∧
          part.start ≤ sectorStart (part.start + addr) ∧
          sectorStart (part.start + addr) + 4096 ≤ part.end_) ∧
        ∀ f ∈ frames, ∀ a n, addressedRange f = some (a, n) →
          part.start ≤ a ∧ a + n ≤ part.end_) ∧
    (Responsive T → ∃ N w1 r, ∀ fuel, N ≤ fuel →
      spi_flash_erase T fuel w p addr size = .ok (w1, r)) := by
  obtain ⟨hse, hend, hal1, hal2, _⟩ := afterInit_layout w hw p h0 h3 part hpart
  have hrejected : ∀ (fuel : Nat) (w1 : World σ) (r : Int),
      spi_flash_erase T fuel w p addr size = .ok (w1, r) →
      spi_flash_erase T fuel w p addr size = .ok (w, -1) →
      ∃ frames, w1.log = w.log ++ frames ∧ r = -1 ∧ frames = [] := by
    intro fuel w1 r h hrej
    rw [hrej] at h
    have e := Except.ok.inj h
    have ew : w = w1 := (Prod.mk.inj e).1
    have er : (-1 : Int) = r := (Prod.mk.inj e).2
    subst ew
    exact ⟨[], by simp, er.symm, rfl⟩
  refine ⟨hal1, hal2, ?_, ?_⟩
  · intro fuel w1 r h
    by_cases hgt : part.size < addr
    · obtain ⟨frames, hlog, hr, hfr⟩ := hrejected fuel w1 r h
        (erase_out_of_bounds T fuel w p part h3 hpart addr size hgt)
      refine ⟨frames, hlog, fun _ => ⟨hr, hfr⟩, fun hle => by omega, ?_⟩
      intro f hf
      rw [hfr] at hf
      simp at hf
    · have ha : addr ≤ part.size := by omega
      have hc := clipSize_eq part addr size ha (by omega)
      by_cases hsmall : clipSize part addr size < 4096
      · obtain ⟨frames, hlog, hr, hfr⟩ := hrejected fuel w1 r h
          (erase_too_small T fuel w p part h3 hpart addr size ha hsmall)
        refine ⟨frames, hlog, fun _ => ⟨hr, hfr⟩, fun _ hbig => by omega, ?_⟩
        intro f hf
        rw [hfr] at hf
        simp at hf
      · have hbig : 4096 ≤ clipSize part addr size := by omega
        have hA : add32 addr part.start = part.start + addr := by
          simp only [add32]; omega
        have hmod : (part.start + addr) % 2^24 = part.start + addr :=
          Nat.mod_eq_of_lt (by omega)
        obtain ⟨n0, n1, n2, n3, n4, _, _, _, _, _, hlog⟩ :=
          erase_inv_log T fuel w p part h3 hpart addr size ha hbig w1 r h
        rw [hA] at hlog
        have hr : r = toInt32 (clipSize part addr size) := by
          rcases erase_inv T fuel w p part h3 hpart addr size ha w1 r h with
            ⟨hlt, _, _⟩ | ⟨_, hr⟩
          · omega
          · exact hr
        rw [toInt32_of_lt _ (by omega)] at hr
        have hrange : addressedRange (eraseFrame (part.start + addr)) =
            some (sectorStart (part.start + addr), 4096) := by
          rw [addressedRange_erase, hmod]
        have hs1 : sectorStart (part.start + addr) % 4096 = 0 := by
          simp only [sectorStart]; omega
        have hs2 : sectorStart (part.start + addr) ≤ part.start + addr := by
          simp only [sectorStart]; omega
        have hs3 : part.start + addr < sectorStart (part.start + addr) + 4096 := by
          simp only [sectorStart]; omega
        have hs4 : part.start ≤ sectorStart (part.start + addr) := by
          simp only [sectorStart]; omega
        have hs5 : sectorStart (part.start + addr) + 4096 ≤ part.end_ := by
          simp only [sectorStart]; omega
        refine ⟨wakeFrames w n0 ++ List.replicate n1 statusFrame ++ [cmdFrame 0x06] ++
          List.replicate n2 statusFrame ++ [eraseFrame (part.start + addr)] ++
          List.replicate n3 statusFrame ++ [cmdFrame 0x04] ++ List.replicate n4 statusFrame,
          ?_, fun hor => by omega,
          fun _ _ => ⟨by rw [hr, hc], by omega, ⟨n0, n1, n2, n3, n4, rfl⟩, hrange, hs1, hs2,
            hs3, hs4, hs5⟩, ?_⟩
        · rw [hlog]; simp only [List.append_assoc]
        · intro f hf a n hx
          have hfm := op_frames_addressed w n0 n1 n2 n3 n4 _ f hf (a, n) hx
          rw [hfm, hrange] at hx
          have e := Prod.mk.inj (Option.some.inj hx)
          omega
  · intro hT
    by_cases hgt : part.size < addr
    · exact ⟨0, w, -1, fun fuel _ => erase_out_of_bounds T fuel w p part h3 hpart addr size hgt⟩
    · have ha : addr ≤ part.size := by omega
      by_cases hsmall : clipSize part addr size < 4096
      · exact ⟨0, w, -1, fun fuel _ =>
          erase_too_small T fuel w p part h3 hpart addr size ha hsmall⟩
      · obtain ⟨n0, n1, n2, n3, n4, w1, _, _, _, _, _, _, _, _, herase⟩ :=
          erase_ok T hT w p part h3 hpart addr size ha (by omega)
        exact ⟨n0 + n1 + n2 + n3 + n4, w1, _, herase⟩

/-- C19 on the simulated chip: an erase at the unaligned offset 0x1234 of
partition 1 (start 0x4000, end 0x100000) returns 0x2000; its one sector-erase
frame addresses the sector at 0x5000, and no frame of the call addresses a
byte outside the partition. -/
theorem erase_sector_in_partition_witness :
    sectorStart (0x4000 + 0x1234) = 0x5000 ∧
    ∃ N w1,
      (∀ fuel, N ≤ fuel →
        spi_flash_erase simTransfer fuel simReady 1 0x1234 0x2000 = .ok (w1, 0x2000)) ∧
      eraseFrame (0x4000 + 0x1234) ∈ w1.log.drop simReady.log.length ∧
      addressedRange (eraseFrame (0x4000 + 0x1234)) = some (0x5000, 4096) ∧
      ∀ f ∈ w1.log.drop simReady.log.length, ∀ a n,
        addressedRange f = some (a, n) → 0x4000 ≤ a ∧ a + n ≤ 0x100000 := by
  obtain ⟨_, _, herase, htotal⟩ :=
    erase_sector_in_partition simTransfer simReady simReady_afterInit 1
      (by decide) (by decide) { start := 0x4000, end_ := 0x100000, size := 0xFC000 } rfl
      0x1234 0x2000
  obtain ⟨N, w1, r, hrun⟩ := htotal sim_responsive
  obtain ⟨frames, hlog, _, hsucc, hall⟩ := herase N w1 r (hrun N (le_refl _))
  obtain ⟨hr, _, ⟨n0, n1, n2, n3, n4, hfr⟩, hrange, _⟩ := hsucc (by decide) (by decide)
  have er : r = 0x2000 := by rw [hr]; decide
  subst er
  refine ⟨by decide, N, w1, hrun, ?_, hrange, ?_⟩
  · rw [hlog, List.drop_left, hfr]
    simp
  · rw [hlog, List.drop_left]
    exact hall

/-- C18: after initialisation, for every transport, fuel, index and arguments:
whenever `spi_flash_read`, `spi_flash_write` or `spi_flash_erase` returns the
error value `-1`, the world it leaves is the world it was called in (same bus
log, so no transfer was issued, same chip state, same sleep flag and partition
table; `dst` is untouched).  The error value is returned, for every fuel, when
the index is `≥ 3`, when `addr > size(p)`, and by erase when the clipped size
is below 4096.  (`spi_flash_size` and `spi_flash_erase_size` are functions of
the table and the index alone and have no access to the world.) -/
theorem failure_is_atomic {σ : Type} (T : Transport σ) (fuel : Nat) (w : World σ)
    (hw : AfterInit w) (p : Int) (addr size : Nat) (dst src : List Nat) :
    (∀ w1 d, spi_flash_read T fuel w p addr size dst = .ok (w1, -1, d) → w1 = w ∧ d = dst) ∧
    (∀ w1, spi_flash_write T fuel w p addr size src = .ok (w1, -1) → w1 = w) ∧
    (∀ w1, spi_flash_erase T fuel w p addr size = .ok (w1, -1) → w1 = w) ∧
    (3 ≤ p →
      spi_flash_read T fuel w p addr size dst = .ok (w, -1, dst) ∧
      spi_flash_write T fuel w p addr size src = .ok (w, -1) ∧
      spi_flash_erase T fuel w p addr size = .ok (w, -1)) ∧
    (∀ s : Int, 0 ≤ p → p < 3 → spi_flash_size w.spi_flash_partitions p = .ok s →
      (s < (addr : Int) →
        spi_flash_read T fuel w p addr size dst = .ok (w, -1, dst) ∧
        spi_flash_write T fuel w p addr size src = .ok (w, -1) ∧
        spi_flash_erase T fuel w p addr size = .ok (w, -1)) ∧
      ((addr : Int) ≤ s → min (size : Int) (s - (addr : Int)) < 4096 →
        spi_flash_erase T fuel w p addr size = .ok (w, -1))) := by
  have hvalid : 0 ≤ p → p < 3 → ∃ part, partitionAt w.spi_flash_partitions p = .ok part ∧
      part.size ≤ 0x700000 := by
    intro h0 h3
    obtain ⟨part, h1, _, h4, h5, h6⟩ := afterInit_partition w hw p h0 h3
    exact ⟨part, h1, by rw [h6]; split <;> [skip; split] <;> decide⟩
  refine ⟨?_, ?_, ?_, ?_, ?_⟩
  · intro w1 d h
    by_cases hhi : 3 ≤ p
    · rw [read_invalid T fuel w p hhi addr size dst] at h
      have e := Except.ok.inj h
      exact ⟨(Prod.mk.inj e).1.symm, (Prod.mk.inj (Prod.mk.inj e).2).2.symm⟩
    · by_cases hneg : p < 0
      · rw [(negative_index_faults T fuel w p hneg addr size dst).1] at h
        cases h
      · obtain ⟨part, hpart, hsz⟩ := hvalid (by omega) (by omega)
        by_cases hgt : part.size < addr
        · rw [read_out_of_bounds T fuel w p part (by omega) hpart addr size dst hgt] at h
          have e := Except.ok.inj h
          exact ⟨(Prod.mk.inj e).1.symm, (Prod.mk.inj (Prod.mk.inj e).2).2.symm⟩
        · have ha : addr ≤ part.size := by omega
          have hr := read_inv T fuel w p part (by omega) hpart addr size dst ha w1 (-1) d h
          have hc := clipSize_eq part addr size ha (by omega)
          rw [toInt32_of_lt _ (by omega)] at hr
          omega
  · intro w1 h
    by_cases hhi : 3 ≤ p
    · rw [write_invalid T fuel w p hhi addr size src] at h
      exact (Prod.mk.inj (Except.ok.inj h)).1.symm
    · by_cases hneg : p < 0
      · rw [(negative_index_faults T fuel w p hneg addr size src).2.1] at h
        cases h
      · obtain ⟨part, hpart, hsz⟩ := hvalid (by omega) (by omega)
        by_cases hgt : part.size < addr
        · rw [write_out_of_bounds T fuel w p part (by omega) hpart addr size src hgt] at h
          exact (Prod.mk.inj (Except.ok.inj h)).1.symm
        · have ha : addr ≤ part.size := by omega
          have hr := write_inv T fuel w p part (by omega) hpart addr size src ha w1 (-1) h
          have hc := clipSize_eq part addr size ha (by omega)
          have hpc := pageClip_eq (clipSize part addr size)
          rw [toInt32_of_lt _ (by omega)] at hr
          omega
  · intro w1 h
    by_cases hhi : 3 ≤ p
    · rw [erase_invalid T fuel w p hhi addr size] at h
      exact (Prod.mk.inj (Except.ok.inj h)).1.symm
    · by_cases hneg : p < 0
      · rw [(negative_index_faults T fuel w p hneg addr size []).2.2] at h
        cases h
      · obtain ⟨part, hpart, hsz⟩ := hvalid (by omega) (by omega)
        by_cases hgt : part.size < addr
        · rw [erase_out_of_bounds T fuel w p part (by omega) hpart addr size hgt] at h
          exact (Prod.mk.inj (Except.ok.inj h)).1.symm
        · have ha : addr ≤ part.size := by omega
          have hc := clipSize_eq part addr size ha (by omega)
          rcases erase_inv T fuel w p part (by omega) hpart addr size ha w1 (-1) h with
            ⟨_, _, hw1⟩ | ⟨hbig, hr⟩
          · exact hw1
          · rw [toInt32_of_lt _ (by omega)] at hr
            omega
  · intro hhi
    exact ⟨read_invalid T fuel w p hhi addr size dst, write_invalid T fuel w p hhi addr size src,
      erase_invalid T fuel w p hhi addr size⟩
  · intro s h0 h3 hs
    obtain ⟨part, hpart, hsz, hse, hend, _⟩ := afterInit_size w hw p h0 h3 s hs
    refine ⟨fun hlt => ?_, fun hle hsmall => ?_⟩
    · have hgt : part.size < addr := by omega
      exact ⟨read_out_of_bounds T fuel w p part h3 hpart addr size dst hgt,
        write_out_of_bounds T fuel w p part h3 hpart addr size src hgt,
        erase_out_of_bounds T fuel w p part h3 hpart addr size hgt⟩
    · have ha : addr ≤ part.size := by omega
      have hc := clipSize_eq part addr size ha (by omega)
      exact erase_too_small T fuel w p part h3 hpart addr size ha (by omega)

/-- C18 on the suspended simulated chip: a rejected read, write and erase each
return the very world they were called in, still asleep. -/
theorem failure_is_atomic_witness :
    AfterInit simAsleep ∧
    spi_flash_read simTransfer 4 simAsleep 0 0x4001 8 [1, 2] = .ok (simAsleep, -1, [1, 2]) ∧
    spi_flash_write simTransfer 4 simAsleep 5 0 8 [1, 2] = .ok (simAsleep, -1) ∧
    spi_flash_erase simTransfer 4 simAsleep 0 0x3800 4096 = .ok (simAsleep, -1) := by
  have h := failure_is_atomic simTransfer 4 simAsleep simAsleep_afterInit 0 0x4001 8 [1, 2] []
  have h5 := failure_is_atomic simTransfer 4 simAsleep simAsleep_afterInit 5 0 8 [] [1, 2]
  have he := failure_is_atomic simTransfer 4 simAsleep simAsleep_afterInit 0 0x3800 4096 [] []
  exact ⟨simAsleep_afterInit,
    ((h.2.2.2.2 0x4000 (by decide) (by decide) rfl).1 (by decide)).1,
    (h5.2.2.2.1 (by decide)).2.1,
    (he.2.2.2.2 0x4000 (by decide) (by decide) rfl).2 (by decide) (by decide)⟩

/-- C20: after initialisation, for a valid partition whose size
`spi_flash_size` reports as `s`: `0 ≤ s ≤ 0x700000 < 2^31`, and for every
transport and fuel a value `r` returned by `spi_flash_read`,
`spi_flash_write` or `spi_flash_erase` is `-1` when `addr > s` and otherwise
(erase may also return `-1`) is the `int32_t` conversion of an unsigned count
`n < 2^31` that the conversion leaves unchanged, with `0 ≤ r ≤ s - addr ≤ s`;
so a successful result is never `-1`.  On a responsive chip all three calls do
return once the fuel is large enough. -/
theorem results_in_range {σ : Type} (T : Transport σ) (w : World σ) (hw : AfterInit w)
    (p : Int) (h0 : 0 ≤ p) (h3 : p < 3) (s : Int)
    (hs : spi_flash_size w.spi_flash_partitions p = .ok s)
    (addr size : Nat) (dst src : List Nat) :
    0 ≤ s ∧ s ≤ 0x700000 ∧ (0x700000 : Int) < 2^31 ∧
    (∃ n : Nat, n < 2^31 ∧ s = toInt32 n ∧ toInt32 n = (n : Int)) ∧
    (∀ fuel w1 r d, spi_flash_read T fuel w p addr size dst = .ok (w1, r, d) →
      (s < (addr : Int) → r = -1) ∧
      ((addr : Int) ≤ s → 0 ≤ r ∧ r ≤ s - (addr : Int) ∧ r ≤ s ∧
        ∃ n : Nat, n < 2^31 ∧ r = toInt32 n ∧ toInt32 n = (n : Int))) ∧
    (∀ fuel w1 r, spi_flash_write T fuel w p addr size src = .ok (w1, r) →
      (s < (addr : Int) → r = -1) ∧
      ((addr : Int) ≤ s → 0 ≤ r ∧ r ≤ s - (addr : Int) ∧ r ≤ s ∧
        ∃ n : Nat, n < 2^31 ∧ r = toInt32 n ∧ toInt32 n = (n : Int))) ∧
    (∀ fuel w1 r, spi_flash_erase T fuel w p addr size = .ok (w1, r) →
      (s < (addr : Int) → r = -1) ∧
      ((addr : Int) ≤ s → r = -1 ∨ (0 ≤ r ∧ r ≤ s - (addr : Int) ∧ r ≤ s ∧
        ∃ n : Nat, n < 2^31 ∧ r = toInt32 n ∧ toInt32 n = (n : Int)))) ∧
    (Responsive T → ∃ N w1 r1 d1 w2 r2 w3 r3, ∀ fuel, N ≤ fuel →
      spi_flash_read T fuel w p addr size dst = .ok (w1, r1, d1) ∧
      spi_flash_write T fuel w p addr size src = .ok (w2, r2) ∧
      spi_flash_erase T fuel w p addr size = .ok (w3, r3)) := by
  obtain ⟨part, hpart, hsz, hse, hend, h6⟩ := afterInit_size w hw p h0 h3 s hs
  have hsz7 : part.size ≤ 0x700000 := by
    rw [h6]; split <;> [skip; split] <;> decide
  have hconv : ∀ n : Nat, n ≤ part.size → toInt32 n = (n : Int) := fun n hn =>
    toInt32_of_lt n (by omega)
  refine ⟨by omega, by omega, by decide, ⟨part.size, by omega, ?_, hconv _ (le_refl _)⟩,
    ?_, ?_, ?_, ?_⟩
  · rw [hconv _ (le_refl _)]; exact hsz
  · intro fuel w1 r d h
    refine ⟨fun hlt => ?_, fun hle => ?_⟩
    · rw [read_out_of_bounds T fuel w p part h3 hpart addr size dst (by omega)] at h
      exact (Prod.mk.inj (Prod.mk.inj (Except.ok.inj h)).2).1.symm
    · have ha : addr ≤ part.size := by omega
      have hc := clipSize_eq part addr size ha (by omega)
      have hr := read_inv T fuel w p part h3 hpart addr size dst ha w1 r d h
      have hcv := hconv (clipSize part addr size) (by omega)
      exact ⟨by omega, by omega, by omega, clipSize part addr size, by omega, hr, hcv⟩
  · intro fuel w1 r h
    refine ⟨fun hlt => ?_, fun hle => ?_⟩
    · rw [write_out_of_bounds T fuel w p part h3 hpart addr size src (by omega)] at h
      exact (Prod.mk.inj (Except.ok.inj h)).2.symm
    · have ha : addr ≤ part.size := by omega
      have hc := clipSize_eq part addr size ha (by omega)
      have hpc := pageClip_eq (clipSize part addr size)
      have hr := write_inv T fuel w p part h3 hpart addr size src ha w1 r h
      have hcv := hconv (pageClip (clipSize part addr size)) (by omega)
      exact ⟨by omega, by omega, by omega, pageClip (clipSize part addr size), by omega, hr,
        hcv⟩
  · intro fuel w1 r h
    refine ⟨fun hlt => ?_, fun hle => ?_⟩
    · rw [erase_out_of_bounds T fuel w p part h3 hpart addr size (by omega)] at h
      exact (Prod.mk.inj (Except.ok.inj h)).2.symm
    · have ha : addr ≤ part.size := by omega
      have hc := clipSize_eq part addr size ha (by omega)
      rcases erase_inv T fuel w p part h3 hpart addr size ha w1 r h with
        ⟨_, hr, _⟩ | ⟨_, hr⟩
      · exact Or.inl hr
      · have hcv := hconv (clipSize part addr size) (by omega)
        exact Or.inr ⟨by omega, by omega, by omega, clipSize part addr size, by omega, hr,
          hcv⟩
  · intro hT
    by_cases hgt : part.size < addr
    · exact ⟨0, w, -1, dst, w, -1, w, -1, fun fuel _ =>
        ⟨read_out_of_bounds T fuel w p part h3 hpart addr size dst hgt,
          write_out_of_bounds T fuel w p part h3 hpart addr size src hgt,
          erase_out_of_bounds T fuel w p part h3 hpart addr size hgt⟩⟩
    · have ha : addr ≤ part.size := by omega
      obtain ⟨n0, n1, w1, rx, _, _, _, _, _, _, hread⟩ :=
        read_ok T hT.1 w p part h3 hpart addr size dst ha
      obtain ⟨m0, m1, m2, m3, m4, w2, _, _, _, _, _, _, _, _, hwrite⟩ :=
        write_ok T hT w p part h3 hpart addr size src ha
      by_cases hsmall : clipSize part addr size < 4096
      · exact ⟨n0 + n1 + (m0 + m1 + m2 + m3 + m4), w1, _, _, w2, _, w, -1, fun fuel hf =>
          ⟨hread fuel (by omega), hwrite fuel (by omega),
            erase_too_small T fuel w p part h3 hpart addr size ha hsmall⟩⟩
      · obtain ⟨k0, k1, k2, k3, k4, w3, _, _, _, _, _, _, _, _, herase⟩ :=
          erase_ok T hT w p part h3 hpart addr size ha (by omega)
        exact ⟨n0 + n1 + (m0 + m1 + m2 + m3 + m4) + (k0 + k1 + k2 + k3 + k4), w1, _, _, w2, _,
          w3, _, fun fuel hf =>
          ⟨hread fuel (by omega), hwrite fuel (by omega), herase fuel (by omega)⟩⟩

/-- C20 on the simulated chip, partition 2 (size 0x700000): reading 0x900000
bytes from offset 0 gives a value between 0 and 0x700000. -/
theorem results_in_range_witness :
    AfterInit simReady ∧
    ∃ N w1 r d,
      (∀ fuel, N ≤ fuel →
        spi_flash_read simTransfer fuel simReady 2 0 0x900000 [] = .ok (w1, r, d)) ∧
      0 ≤ r ∧ r ≤ 0x700000 ∧ r ≠ -1 := by
  obtain ⟨_, _, _, _, hread, _, _, htotal⟩ :=
    results_in_range simTransfer simReady simReady_afterInit 2 (by decide) (by decide)
      0x700000 rfl 0 0x900000 [] []
  obtain ⟨N, w1, r1, d1, _, _, _, _, hrun⟩ := htotal sim_responsive
  obtain ⟨_, hsucc⟩ := hread N w1 r1 d1 (hrun N (le_refl _)).1
  obtain ⟨hlo, _, hhi, _⟩ := hsucc (by decide)
  exact ⟨simReady_afterInit, N, w1, r1, d1, fun fuel hf => (hrun fuel hf).1, hlo, hhi,
    by omega⟩

end SpiFlash
